import Mathlib

/-!
Scoring terms of `everything.cpp` and the progress display

A shallow embedding of the scoring terms and the term registry of
`src/lib/everything.cpp`, and of `simple_progress_display` of
`src/lib/parallel_progress.h`.

The C++ type `fl` is read as an exact ordered field: every definition is
generic in a `LinearOrderedField α`, so it runs on `ℚ` and it is stated
for `ℝ` where the exponential is needed.  `sz` is `Nat`.  `std::exp` is
passed to the definitions that call it.  A `VINA_CHECK` that fails is
`none`.
-/

namespace Vina

/-- Declarations that `everything.cpp` uses from headers that are not part of
the sources at hand (`common.h`, `atom_constants.h`, `atom_type.h`): the two
numeric limits, the tables and predicates on `xs` and `ad` types, and the
named type constants.  They are parameters of the embedding. -/
structure Externals (α : Type) where
  /-- The constant `epsilon_fl`. -/
  epsilon_fl : α
  /-- The constant `max_fl`. -/
  max_fl : α
  /-- The predicate `not_max(x)`. -/
  not_max : α → Bool
  /-- The constant `pi`. -/
  pi : α
  /-- The table `xs_radius(t)`. -/
  xs_radius : Nat → α
  /-- The predicate `xs_is_hydrophobic(t)`. -/
  xs_is_hydrophobic : Nat → Bool
  /-- The predicate `xs_is_acceptor(t)`. -/
  xs_is_acceptor : Nat → Bool
  /-- The predicate `xs_is_halogen(t)`. -/
  xs_is_halogen : Nat → Bool
  /-- The predicate `xs_is_aromatic(t)`. -/
  xs_is_aromatic : Nat → Bool
  /-- The predicate `xs_h_bond_possible(t1, t2)`. -/
  xs_h_bond_possible : Nat → Nat → Bool
  /-- The constant `XS_TYPE_S_P`. -/
  XS_TYPE_S_P : Nat
  /-- The constant `XS_TYPE_Met_D`. -/
  XS_TYPE_Met_D : Nat
  /-- The constant `XS_TYPE_SIZE`. -/
  XS_TYPE_SIZE : Nat
  /-- The constant `AD_TYPE_SIZE`. -/
  AD_TYPE_SIZE : Nat
  /-- The field `ad_type_property(t).solvation`. -/
  ad_solvation : Nat → α
  /-- The field `ad_type_property(t).volume`. -/
  ad_volume : Nat → α
  /-- The constant `metal_solvation_parameter`. -/
  metal_solvation_parameter : α

/-- The fields of `atom_base` that the terms read: the `ad` and `xs` types of
`atom_type` and the `charge`. -/
structure atom_base (α : Type) where
  ad : Nat
  xs : Nat
  charge : α

/-- The fields of `conf_independent_inputs` that the terms read. -/
structure conf_independent_inputs (α : Type) where
  num_tors : α
  num_heavy_atoms : α
  num_hydrophobic_atoms : α
  num_ligands : α
  ligand_lengths_sum : α

section Terms

variable {α : Type} [LinearOrderedField α]

/-- Modelled from the spec: `sqr` of `common.h`, the square `x*x`
("`gaussian(x, width) = exp(-(x/width)^2)`"). -/
def sqr (x : α) : α := x * x

/-- Modelled from the spec: `int_pow<n>` of `int_pow.h`, "computes `r^n` for a
small compile-time-known positive integer `n` via repeated multiplication". -/
def int_pow : Nat → α → α
  | 0, _ => 1
  | n + 1, x => int_pow n x * x

/-- `gaussian(x, width)`: `std::exp(-sqr(x/width))`. -/
def gaussian (exp : α → α) (x width : α) : α :=
  exp (-(sqr (x / width)))

/-- `optimal_distance(xs_t1, xs_t2)`. -/
def optimal_distance (E : Externals α) (xs_t1 xs_t2 : Nat) : α :=
  E.xs_radius xs_t1 + E.xs_radius xs_t2

/-- The guarded returns of `slope_step`, before the final `return`:
`some v` when one of the four `if`s returns `v`, `none` when control falls
through to the linear formula. -/
def slope_step_guard (x_bad x_good x : α) : Option α :=
  if x_bad < x_good then
    if x ≤ x_bad then some 0
    else if x ≥ x_good then some 1
    else none
  else
    if x ≥ x_bad then some 0
    else if x ≤ x_good then some 1
    else none

/-- `slope_step(x_bad, x_good, x)`. -/
def slope_step (x_bad x_good x : α) : α :=
  match slope_step_guard x_bad x_good x with
  | some v => v
  | none => (x - x_bad) / (x_good - x_bad)

/-- The ramp as the specification words it, case by case and in the order
it lists them. -/
def slope_step_reference (x_bad x_good x : α) : α :=
  if x_bad < x_good then
    if x ≤ x_bad then 0
    else if x ≥ x_good then 1
    else (x - x_bad) / (x_good - x_bad)
  else
    if x ≥ x_bad then 0
    else if x ≤ x_good then 1
    else (x - x_bad) / (x_good - x_bad)

/-- `struct gauss`: `offset` (added to the optimal distance), `width`, and the
`cutoff` of `usable`. -/
structure gauss (α : Type) where
  offset : α
  width : α
  cutoff : α

/-- `gauss::eval(t1, t2, r)`. -/
def gauss.eval (exp : α → α) (E : Externals α) (p : gauss α) (t1 t2 : Nat) (r : α) : α :=
  gaussian exp (r - (optimal_distance E t1 t2 + p.offset)) p.width

/-- `struct repulsion`: `offset` and the `cutoff` of `usable`. -/
structure repulsion (α : Type) where
  offset : α
  cutoff : α

/-- `repulsion::eval(t1, t2, r)`. -/
def repulsion.eval (E : Externals α) (p : repulsion α) (t1 t2 : Nat) (r : α) : α :=
  let d := r - (optimal_distance E t1 t2 + p.offset)
  if d > 0 then 0 else d * d

/-- `struct hydrophobic`: `good`, `bad` and the `cutoff` of `usable`. -/
structure hydrophobic (α : Type) where
  good : α
  bad : α
  cutoff : α

/-- `hydrophobic::eval(t1, t2, r)`. -/
def hydrophobic.eval (E : Externals α) (p : hydrophobic α) (t1 t2 : Nat) (r : α) : α :=
  if E.xs_is_hydrophobic t1 && E.xs_is_hydrophobic t2 then
    slope_step p.bad p.good (r - optimal_distance E t1 t2)
  else 0

/-- `struct non_hydrophobic`. -/
structure non_hydrophobic (α : Type) where
  good : α
  bad : α
  cutoff : α

/-- `non_hydrophobic::eval(t1, t2, r)`. -/
def non_hydrophobic.eval (E : Externals α) (p : non_hydrophobic α) (t1 t2 : Nat) (r : α) : α :=
  if !E.xs_is_hydrophobic t1 && !E.xs_is_hydrophobic t2 then
    slope_step p.bad p.good (r - optimal_distance E t1 t2)
  else 0

/-- `find_vdw_coefficients<n, m>(position, depth, c_n, c_m)`: the pair
`(c_n, c_m)` written through the two reference parameters. -/
def find_vdw_coefficients (n m : Nat) (position depth : α) : α × α :=
  (int_pow n position * depth * (m : α) / ((n : α) - (m : α)),
   int_pow m position * depth * (n : α) / ((m : α) - (n : α)))

/-- `struct vdw<i, j>`: `smoothing`, `cap` and the `cutoff` of `usable`. -/
structure vdw (α : Type) where
  smoothing : α
  cap : α
  cutoff : α

/-- The distance that `vdw::eval` uses after its three-way update of `r`. -/
def vdw.shifted_r (p : vdw α) (d0 r : α) : α :=
  if r > d0 + p.smoothing then r - p.smoothing
  else if r < d0 - p.smoothing then r + p.smoothing
  else d0

/-- `vdw<i, j>::eval(t1, t2, r)`. -/
def vdw.eval (i j : Nat) (E : Externals α) (p : vdw α) (t1 t2 : Nat) (r : α) : α :=
  let d0 := optimal_distance E t1 t2
  let depth : α := 1
  let c := find_vdw_coefficients i j d0 depth
  let r := p.shifted_r d0 r
  let r_i := int_pow i r
  let r_j := int_pow j r
  if r_i > E.epsilon_fl ∧ r_j > E.epsilon_fl then min p.cap (c.1 / r_i + c.2 / r_j)
  else p.cap

/-- `struct non_dir_h_bond`. -/
structure non_dir_h_bond (α : Type) where
  good : α
  bad : α
  cutoff : α

/-- `non_dir_h_bond::eval(t1, t2, r)`. -/
def non_dir_h_bond.eval (E : Externals α) (p : non_dir_h_bond α) (t1 t2 : Nat) (r : α) : α :=
  if E.xs_h_bond_possible t1 t2 then
    slope_step p.bad p.good (r - optimal_distance E t1 t2)
  else 0

/-- `struct halogen_bond`. -/
structure halogen_bond (α : Type) where
  good : α
  bad : α
  cutoff : α

/-- `halogen_bond::eval(t1, t2, r)`. -/
def halogen_bond.eval (E : Externals α) (p : halogen_bond α) (t1 t2 : Nat) (r : α) : α :=
  let halogen_acceptor : Bool :=
    (E.xs_is_halogen t1 && E.xs_is_acceptor t2) || (E.xs_is_halogen t2 && E.xs_is_acceptor t1)
  if halogen_acceptor then
    slope_step p.bad p.good (r - (optimal_distance E t1 t2 + 0.3))
  else 0

/-- `struct pi_stacking`. -/
structure pi_stacking (α : Type) where
  good : α
  bad : α
  cutoff : α

/-- `pi_stacking::eval(t1, t2, r)`. -/
def pi_stacking.eval (E : Externals α) (p : pi_stacking α) (t1 t2 : Nat) (r : α) : α :=
  if E.xs_is_aromatic t1 && E.xs_is_aromatic t2 then
    slope_step p.bad p.good (r - (optimal_distance E t1 t2 + 1.0))
  else 0

/-- `struct sulfur_aromatic`. -/
structure sulfur_aromatic (α : Type) where
  good : α
  bad : α
  cutoff : α

/-- `sulfur_aromatic::eval(t1, t2, r)`. -/
def sulfur_aromatic.eval (E : Externals α) (p : sulfur_aromatic α) (t1 t2 : Nat) (r : α) : α :=
  let s_aromatic : Bool :=
    (t1 == E.XS_TYPE_S_P && E.xs_is_aromatic t2) || (t2 == E.XS_TYPE_S_P && E.xs_is_aromatic t1)
  if s_aromatic then
    slope_step p.bad p.good (r - (optimal_distance E t1 t2 + 0.5))
  else 0

/-- `struct desolvation_improved`: `weight` and the `cutoff` of `usable`. -/
structure desolvation_improved (α : Type) where
  weight : α
  cutoff : α

/-- The `desolvation_factor` that `desolvation_improved::eval` selects from the
polarity of the two types. -/
def desolvation_improved.desolvation_factor (E : Externals α) (t1 t2 : Nat) : α :=
  let POLAR_POLAR_PENALTY : α := 1.0
  let HYDROPHOBIC_BONUS : α := -0.3
  let MIXED_PENALTY : α := 0.3
  let t1_hydrophobic := E.xs_is_hydrophobic t1
  let t2_hydrophobic := E.xs_is_hydrophobic t2
  if !t1_hydrophobic && !t2_hydrophobic then POLAR_POLAR_PENALTY
  else if t1_hydrophobic && t2_hydrophobic then HYDROPHOBIC_BONUS
  else MIXED_PENALTY

/-- `desolvation_improved::eval(t1, t2, r)`. -/
def desolvation_improved.eval (exp : α → α) (E : Externals α) (p : desolvation_improved α)
    (t1 t2 : Nat) (r : α) : α :=
  let desolvation_factor := desolvation_improved.desolvation_factor E t1 t2
  let GAUSSIAN_WIDTH : α := 1.5
  let DISTANCE_CUTOFF_OFFSET : α := 2.0
  let d_optimal := optimal_distance E t1 t2
  if r < d_optimal + DISTANCE_CUTOFF_OFFSET then
    p.weight * desolvation_factor * gaussian exp (r - d_optimal) GAUSSIAN_WIDTH
  else 0

/-- `struct electrostatic<i>`: `cap` and the `cutoff` of `distance_additive`. -/
structure electrostatic (α : Type) where
  cap : α
  cutoff : α

/-- `electrostatic<i>::eval(a, b, r)`. -/
def electrostatic.eval (i : Nat) (E : Externals α) (p : electrostatic α)
    (a b : atom_base α) (r : α) : α :=
  let tmp := int_pow i r
  let q1q2 := a.charge * b.charge
  if tmp < E.epsilon_fl then q1q2 * p.cap
  else q1q2 * min p.cap (1 / int_pow i r)

/-- `solvation_parameter(a)`; `none` when `VINA_CHECK(false)` is reached: the
macro `VINA_CHECK` of `common.h` is not among the sources, and a check that
fails aborts the evaluation, so that the `return 0` after it is never
reached. -/
def solvation_parameter (E : Externals α) (a : atom_base α) : Option α :=
  if a.ad < E.AD_TYPE_SIZE then some (E.ad_solvation a.ad)
  else if a.xs = E.XS_TYPE_Met_D then some E.metal_solvation_parameter
  else none

/-- `volume(a)`; `none` when `VINA_CHECK(false)` is reached. -/
def volume (E : Externals α) (a : atom_base α) : Option α :=
  if a.ad < E.AD_TYPE_SIZE then some (E.ad_volume a.ad)
  else if a.xs < E.XS_TYPE_SIZE then some (4 * E.pi / 3 * int_pow 3 (E.xs_radius a.xs))
  else none

/-- `struct ad4_solvation`. -/
structure ad4_solvation (α : Type) where
  desolvation_sigma : α
  solvation_q : α
  charge_dependent : Bool
  cutoff : α

/-- `ad4_solvation::eval(a, b, r)`; `none` when one of its checks, or one in
`solvation_parameter` or `volume`, fails. -/
def ad4_solvation.eval (exp : α → α) (E : Externals α) (p : ad4_solvation α)
    (a b : atom_base α) (r : α) : Option α :=
  let q1 := a.charge
  let q2 := b.charge
  if E.not_max q1 = false then none
  else if E.not_max q2 = false then none
  else
    match solvation_parameter E a with
    | none => none
    | some solv1 =>
      match solvation_parameter E b with
      | none => none
      | some solv2 =>
        match volume E a with
        | none => none
        | some volume1 =>
          match volume E b with
          | none => none
          | some volume2 =>
            let my_solv : α := if p.charge_dependent then p.solvation_q else 0
            let tmp := ((solv1 + my_solv * |q1|) * volume2 +
              (solv2 + my_solv * |q2|) * volume1) * exp (-(sqr (r / (2 * p.desolvation_sigma))))
            if E.not_max tmp = false then none else some tmp

/-- `read_iterator(i)`: the weight under the cursor and the advanced cursor.
The iterator is a position `i` in the weight vector `v`; reading past the end
has no value. -/
def read_iterator (v : List α) (i : Nat) : Option (α × Nat) :=
  match v[i]? with
  | some x => some (x, i + 1)
  | none => none

/-- `smooth_div(x, y)`. -/
def smooth_div (E : Externals α) (x y : α) : α :=
  if |x| < E.epsilon_fl then 0
  else if |y| < E.epsilon_fl then (if x * y > 0 then E.max_fl else -E.max_fl)
  else x / y

/-- `num_tors_add::size()`. -/
def num_tors_add.size : Nat := 1

/-- `num_tors_add::eval(in, x, i)`: the new score and the advanced cursor. -/
def num_tors_add.eval (inp : conf_independent_inputs α) (x : α) (v : List α) (i : Nat) :
    Option (α × Nat) :=
  match read_iterator v i with
  | none => none
  | some (y, i1) =>
    let w := y
    some (x + w * inp.num_tors, i1)

/-- `num_tors_sqr::size()`. -/
def num_tors_sqr.size : Nat := 1

/-- `num_tors_sqr::eval(in, x, i)`. -/
def num_tors_sqr.eval (inp : conf_independent_inputs α) (x : α) (v : List α) (i : Nat) :
    Option (α × Nat) :=
  match read_iterator v i with
  | none => none
  | some (y, i1) =>
    let w := 0.1 * y
    some (x + w * sqr inp.num_tors / 5, i1)

/-- `num_tors_sqrt::size()`. -/
def num_tors_sqrt.size : Nat := 1

/-- `num_tors_sqrt::eval(in, x, i)`, with `std::sqrt` passed as `sqrt`. -/
def num_tors_sqrt.eval (sqrt : α → α) (inp : conf_independent_inputs α) (x : α) (v : List α)
    (i : Nat) : Option (α × Nat) :=
  match read_iterator v i with
  | none => none
  | some (y, i1) =>
    let w := 0.1 * y
    some (x + w * sqrt inp.num_tors / sqrt 5.0, i1)

/-- `num_tors_div::size()`. -/
def num_tors_div.size : Nat := 1

/-- `num_tors_div::eval(in, x, i)`. -/
def num_tors_div.eval (E : Externals α) (inp : conf_independent_inputs α) (x : α)
    (v : List α) (i : Nat) : Option (α × Nat) :=
  match read_iterator v i with
  | none => none
  | some (y, i1) =>
    let w := 0.1 * (y + 1)
    some (smooth_div E x (1 + w * inp.num_tors / 5.0), i1)

/-- `ligand_length::size()`. -/
def ligand_length.size : Nat := 1

/-- `ligand_length::eval(in, x, i)`. -/
def ligand_length.eval (inp : conf_independent_inputs α) (x : α) (v : List α) (i : Nat) :
    Option (α × Nat) :=
  match read_iterator v i with
  | none => none
  | some (y, i1) =>
    let w := y
    some (x + w * inp.ligand_lengths_sum, i1)

/-- `num_ligands::size()`. -/
def num_ligands.size : Nat := 1

/-- `num_ligands::eval(in, x, i)`. -/
def num_ligands.eval (inp : conf_independent_inputs α) (x : α) (v : List α) (i : Nat) :
    Option (α × Nat) :=
  match read_iterator v i with
  | none => none
  | some (y, i1) =>
    let w := 1 * y
    some (x + w * inp.num_ligands, i1)

/-- `num_heavy_atoms_div::size()`. -/
def num_heavy_atoms_div.size : Nat := 1

/-- `num_heavy_atoms_div::eval(in, x, i)`. -/
def num_heavy_atoms_div.eval (E : Externals α) (inp : conf_independent_inputs α) (x : α)
    (v : List α) (i : Nat) : Option (α × Nat) :=
  match read_iterator v i with
  | none => none
  | some (y, i1) =>
    let w := 0.05 * y
    some (smooth_div E x (1 + w * inp.num_heavy_atoms), i1)

/-- `num_heavy_atoms::size()`. -/
def num_heavy_atoms.size : Nat := 1

/-- `num_heavy_atoms::eval(in, x, i)`. -/
def num_heavy_atoms.eval (inp : conf_independent_inputs α) (x : α) (v : List α) (i : Nat) :
    Option (α × Nat) :=
  match read_iterator v i with
  | none => none
  | some (y, i1) =>
    let w := 0.05 * y
    some (x + w * inp.num_heavy_atoms, i1)

/-- `num_hydrophobic_atoms::size()`. -/
def num_hydrophobic_atoms.size : Nat := 1

/-- `num_hydrophobic_atoms::eval(in, x, i)`. -/
def num_hydrophobic_atoms.eval (inp : conf_independent_inputs α) (x : α) (v : List α)
    (i : Nat) : Option (α × Nat) :=
  match read_iterator v i with
  | none => none
  | some (y, i1) =>
    let w := 0.05 * y
    some (x + w * inp.num_hydrophobic_atoms, i1)

/-- A table of externals on which the definitions can be evaluated: the
limits of IEEE binary64, and the seventeen `xs` types with the radii and
classes of the X-Score typing (`C_H`=0, `C_P`=1, `N_P`=2, `N_D`=3, `N_A`=4,
`N_DA`=5, `O_P`=6, `O_D`=7, `O_A`=8, `O_DA`=9, `S_P`=10, `P_P`=11, `F_H`=12,
`Cl_H`=13, `Br_H`=14, `I_H`=15, `Met_D`=16). -/
def sample_externals : Externals α where
  epsilon_fl := 1 / 2 ^ 52
  max_fl := (2 ^ 53 - 1) * 2 ^ 971
  not_max := fun x => decide (x < 0.1 * ((2 ^ 53 - 1) * 2 ^ 971))
  pi := 3.1415926535897931
  xs_radius := fun t =>
    if t ≤ 1 then 1.9 else if t ≤ 5 then 1.8 else if t ≤ 9 then 1.7
    else if t = 10 then 2.0 else if t = 11 then 2.1 else if t = 12 then 1.5
    else if t = 13 then 1.8 else if t = 14 then 2.0 else if t = 15 then 2.2 else 1.2
  xs_is_hydrophobic := fun t => t == 0 || t == 12 || t == 13 || t == 14 || t == 15
  xs_is_acceptor := fun t => t == 4 || t == 5 || t == 8 || t == 9
  xs_is_halogen := fun t => t == 13 || t == 14 || t == 15
  xs_is_aromatic := fun t => t == 0 || t == 1
  xs_h_bond_possible := fun t1 t2 =>
    ((t1 == 3 || t1 == 5 || t1 == 7 || t1 == 9 || t1 == 16) &&
        (t2 == 4 || t2 == 5 || t2 == 8 || t2 == 9)) ||
      ((t2 == 3 || t2 == 5 || t2 == 7 || t2 == 9 || t2 == 16) &&
        (t1 == 4 || t1 == 5 || t1 == 8 || t1 == 9))
  XS_TYPE_S_P := 10
  XS_TYPE_Met_D := 16
  XS_TYPE_SIZE := 17
  AD_TYPE_SIZE := 20
  ad_solvation := fun t => if t = 0 then -0.00143 else if t = 1 then -0.00052 else -0.00110
  ad_volume := fun t => if t = 0 then 33.5103 else if t = 1 then 33.5103 else 22.4493
  metal_solvation_parameter := -0.00110

/-- The terms derived from `distance_additive`, one constructor for each
`struct`; the template argument of `electrostatic<i>` is the first field. -/
inductive distance_additive (α : Type) where
  | electrostatic (i : Nat) (p : Vina.electrostatic α)
  | ad4_solvation (p : Vina.ad4_solvation α)

/-- The terms derived from `usable`, one constructor for each `struct`; the
template arguments of `vdw<i, j>` are the first two fields. -/
inductive usable (α : Type) where
  | gauss (p : Vina.gauss α)
  | repulsion (p : Vina.repulsion α)
  | hydrophobic (p : Vina.hydrophobic α)
  | non_hydrophobic (p : Vina.non_hydrophobic α)
  | vdw (i j : Nat) (p : Vina.vdw α)
  | non_dir_h_bond (p : Vina.non_dir_h_bond α)
  | halogen_bond (p : Vina.halogen_bond α)
  | pi_stacking (p : Vina.pi_stacking α)
  | sulfur_aromatic (p : Vina.sulfur_aromatic α)
  | desolvation_improved (p : Vina.desolvation_improved α)

/-- The member `cutoff` that every term derived from `usable` sets through
`usable(cutoff_)`. -/
def usable.cutoff : usable α → α
  | .gauss p => p.cutoff
  | .repulsion p => p.cutoff
  | .hydrophobic p => p.cutoff
  | .non_hydrophobic p => p.cutoff
  | .vdw _ _ p => p.cutoff
  | .non_dir_h_bond p => p.cutoff
  | .halogen_bond p => p.cutoff
  | .pi_stacking p => p.cutoff
  | .sulfur_aromatic p => p.cutoff
  | .desolvation_improved p => p.cutoff

/-- The virtual call `eval(t1, t2, r)` on a term derived from `usable`. -/
def usable.eval (exp : α → α) (E : Externals α) (t : usable α) (t1 t2 : Nat) (r : α) : α :=
  match t with
  | .gauss p => p.eval exp E t1 t2 r
  | .repulsion p => p.eval E t1 t2 r
  | .hydrophobic p => p.eval E t1 t2 r
  | .non_hydrophobic p => p.eval E t1 t2 r
  | .vdw i j p => p.eval i j E t1 t2 r
  | .non_dir_h_bond p => p.eval E t1 t2 r
  | .halogen_bond p => p.eval E t1 t2 r
  | .pi_stacking p => p.eval E t1 t2 r
  | .sulfur_aromatic p => p.eval E t1 t2 r
  | .desolvation_improved p => p.eval exp E t1 t2 r

/-- The terms derived from `conf_independent`, one constructor for each
`struct`. -/
inductive conf_independent where
  | num_tors_add
  | num_tors_sqr
  | num_tors_sqrt
  | num_tors_div
  | ligand_length
  | num_ligands
  | num_heavy_atoms_div
  | num_heavy_atoms
  | num_hydrophobic_atoms

/-- The virtual call `size()` on a term derived from `conf_independent`. -/
def conf_independent.size : conf_independent → Nat
  | .num_tors_add => Vina.num_tors_add.size
  | .num_tors_sqr => Vina.num_tors_sqr.size
  | .num_tors_sqrt => Vina.num_tors_sqrt.size
  | .num_tors_div => Vina.num_tors_div.size
  | .ligand_length => Vina.ligand_length.size
  | .num_ligands => Vina.num_ligands.size
  | .num_heavy_atoms_div => Vina.num_heavy_atoms_div.size
  | .num_heavy_atoms => Vina.num_heavy_atoms.size
  | .num_hydrophobic_atoms => Vina.num_hydrophobic_atoms.size

/-- The virtual call `eval(in, x, i)` on a term derived from
`conf_independent`. -/
def conf_independent.eval (sqrt : α → α) (E : Externals α) (t : conf_independent)
    (inp : conf_independent_inputs α) (x : α) (v : List α) (i : Nat) : Option (α × Nat) :=
  match t with
  | .num_tors_add => Vina.num_tors_add.eval inp x v i
  | .num_tors_sqr => Vina.num_tors_sqr.eval inp x v i
  | .num_tors_sqrt => Vina.num_tors_sqrt.eval sqrt inp x v i
  | .num_tors_div => Vina.num_tors_div.eval E inp x v i
  | .ligand_length => Vina.ligand_length.eval inp x v i
  | .num_ligands => Vina.num_ligands.eval inp x v i
  | .num_heavy_atoms_div => Vina.num_heavy_atoms_div.eval E inp x v i
  | .num_heavy_atoms => Vina.num_heavy_atoms.eval inp x v i
  | .num_hydrophobic_atoms => Vina.num_hydrophobic_atoms.eval inp x v i

/-- Modelled from the spec: `struct terms` of `terms.h`, the base of
`everything`, which is not among the sources: "an ordered collection of
(weight-class id, Term) entries, partitioned into the two capability
families"; the pairwise family is kept in the two lists of its two base
classes. -/
structure terms (α : Type) where
  distance_additive_terms : List (Nat × distance_additive α)
  usable_terms : List (Nat × usable α)
  conf_independent_terms : List (Nat × conf_independent)

/-- The registry before any `add`. -/
def terms.empty : terms α := ⟨[], [], []⟩

/-- Modelled from the spec: the overload of `terms::add(e, p)` of `terms.h`
for a `usable*`: the entry goes to the end of the pairwise terms, tagged with
its weight-class id `e`. -/
def terms.add_usable (s : terms α) (e : Nat) (p : usable α) : terms α :=
  { s with usable_terms := s.usable_terms ++ [(e, p)] }

/-- Modelled from the spec: the overload of `terms::add(e, p)` of `terms.h`
for a `conf_independent*`: the entry goes to the end of the
conformation-independent terms, tagged with its weight-class id `e`. -/
def terms.add_conf_independent (s : terms α) (e : Nat) (p : conf_independent) : terms α :=
  { s with conf_independent_terms := s.conf_independent_terms ++ [(e, p)] }

/-- `everything::everything()`: the calls of `add` that are not commented out,
in the order of the source. -/
def everything : terms α :=
  let d : Nat := 0
  let cutoff : α := 8
  let s : terms α := terms.empty
  let s := s.add_usable 1 (.gauss ⟨0, 0.5, cutoff⟩)
  let s := s.add_usable 1 (.gauss ⟨3, 2.0, cutoff⟩)
  let s := s.add_usable 1 (.repulsion ⟨0.0, cutoff⟩)
  let s := s.add_usable 1 (.hydrophobic ⟨0.5, 1.5, cutoff⟩)
  let s := s.add_usable 1 (.non_dir_h_bond ⟨-0.7, 0, cutoff⟩)
  let s := s.add_usable d (.halogen_bond ⟨-0.5, 0.5, cutoff⟩)
  let s := s.add_usable d (.pi_stacking ⟨-0.4, 1.0, cutoff⟩)
  let s := s.add_usable d (.sulfur_aromatic ⟨-0.3, 0.8, cutoff⟩)
  let s := s.add_usable d (.desolvation_improved ⟨0.02, cutoff⟩)
  let s := s.add_conf_independent 1 .num_tors_div
  s

/-- The clamp as the specification words it for `vdw`: `r` "clamped into"
the interval `[lo, hi]`. -/
def clamp_into (lo hi r : α) : α := max lo (min hi r)

end Terms

section Progress

/-- `class simple_progress_display` of `parallel_progress.h`: its four
counters, and `out`, the characters written to `std::cout` so far, in order
(`std::endl` is a newline, `std::flush` writes nothing).  The unsigned
counters are natural numbers.  The `double` expressions are read in two ways:
`display_tic` and `increment` take them as exact rationals truncated by the
casts, `display_tic_binary64` and `increment_binary64` round every conversion
and operation to the nearest `double` first. -/
structure simple_progress_display where
  _count : Nat
  _expected_count : Nat
  _next_tic_count : Nat
  _tic : Nat
  out : List Char

/-- The constant `PROGRESS_BAR_WIDTH`. -/
def simple_progress_display.PROGRESS_BAR_WIDTH : Nat := 50

/-- The constant `PROGRESS_BAR_WIDTH_DOUBLE`. -/
def simple_progress_display.PROGRESS_BAR_WIDTH_DOUBLE : ℚ := 50.0

/-- The two ruler lines that the constructor writes. -/
def simple_progress_display.ruler : List Char :=
  "0%   10   20   30   40   50   60   70   80   90   100%".toList ++ ['\n'] ++
    "|----|----|----|----|----|----|----|----|----|----| ".toList

/-- The constructor `simple_progress_display(expected_count)`. -/
def simple_progress_display.init (expected_count : Nat) : simple_progress_display :=
  { _count := 0, _expected_count := expected_count, _next_tic_count := 0, _tic := 0,
    out := if expected_count > 0 then simple_progress_display.ruler else [] }

/-- The `while(_tic < tics_needed)` loop of `display_tic`, run for at most
`fuel` iterations. -/
def simple_progress_display.display_tic_loop (tics_needed : Nat) :
    Nat → simple_progress_display → simple_progress_display
  | 0, s => s
  | fuel + 1, s =>
    if s._tic < tics_needed then
      simple_progress_display.display_tic_loop tics_needed fuel
        { s with
          out := s.out ++ ['*']
          _tic := s._tic + 1
          _next_tic_count :=
            ⌊(((s._tic + 1 : Nat) : ℚ) / simple_progress_display.PROGRESS_BAR_WIDTH_DOUBLE)
              * (s._expected_count : ℚ)⌋₊ }
    else s

/-- `display_tic()`: the loop gets `tics_needed - _tic` iterations, the number
it takes for `_tic`, which grows by one in each, to reach `tics_needed`. -/
def simple_progress_display.display_tic (s : simple_progress_display) :
    simple_progress_display :=
  let tics_needed : Nat :=
    ⌊((s._count : ℚ) / (s._expected_count : ℚ))
      * simple_progress_display.PROGRESS_BAR_WIDTH_DOUBLE⌋₊
  simple_progress_display.display_tic_loop tics_needed (tics_needed - s._tic) s

/-- `operator++()`. -/
def simple_progress_display.increment (s : simple_progress_display) :
    simple_progress_display :=
  if s._expected_count = 0 then s
  else
    let s1 := { s with _count := s._count + 1 }
    if s1._count ≥ s1._next_tic_count then s1.display_tic else s1

/-- The `while(_count < _expected_count)` loop of the destructor, run for at
most `fuel` iterations. -/
def simple_progress_display.destructor_loop :
    Nat → simple_progress_display → simple_progress_display
  | 0, s => s
  | fuel + 1, s =>
    if s._count < s._expected_count then
      let s1 := if s._count ≥ s._next_tic_count then s.display_tic else s
      simple_progress_display.destructor_loop fuel { s1 with _count := s1._count + 1 }
    else s

/-- The destructor `~simple_progress_display()`: the loop gets
`_expected_count - _count` iterations, the number it takes for `_count`, which
grows by one in each, to reach `_expected_count`. -/
def simple_progress_display.destructor (s : simple_progress_display) :
    simple_progress_display :=
  let s1 :=
    if s._expected_count > 0 ∧ s._count < s._expected_count then
      simple_progress_display.destructor_loop (s._expected_count - s._count) s
    else s
  if s1._expected_count > 0 then { s1 with out := s1.out ++ ['\n'] } else s1

/-- The number of `'*'` characters written so far. -/
def simple_progress_display.stars (s : simple_progress_display) : Nat :=
  s.out.count '*'

/-- The display has received `c` calls of its counter, `t` stars stand after
the ruler and nothing else has been written, and the next tic is due no later
than the current count. -/
def simple_progress_display.bar_state (N c t : Nat) (s : simple_progress_display) : Prop :=
  s._count = c ∧ s._expected_count = N ∧ s._tic = t ∧ s._next_tic_count ≤ c ∧
    s.out = simple_progress_display.ruler ++ List.replicate t '*'

/-- Rounding of a rational to the nearest integer, a tie going to the even
one. -/
def round_half_even (y : ℚ) : ℤ :=
  if y - ⌊y⌋ < 1 / 2 then ⌊y⌋
  else if 1 / 2 < y - ⌊y⌋ then ⌊y⌋ + 1
  else if ⌊y⌋ % 2 = 0 then ⌊y⌋
  else ⌊y⌋ + 1

/-- The `double` nearest to a rational `x`: round to nearest, ties to even, on
a significand of 53 bits, as IEEE 754 binary64 does for every arithmetic
operation and conversion.  The exponent is not bounded, so this is the binary64
value for magnitudes from `2^-1022` up to the largest finite `double`. -/
def binary64_round (x : ℚ) : ℚ :=
  if x = 0 then 0
  else (round_half_even (x / 2 ^ (Int.log 2 |x| - 52)) : ℚ) * 2 ^ (Int.log 2 |x| - 52)

/-- The local `tics_needed` of `display_tic` in binary64: the two conversions,
the division and the multiplication each round to the nearest `double`, and
the cast to `unsigned int` truncates. -/
def simple_progress_display.tics_needed_binary64 (count expected_count : Nat) : Nat :=
  ⌊binary64_round
    (binary64_round (binary64_round (count : ℚ) / binary64_round (expected_count : ℚ))
      * simple_progress_display.PROGRESS_BAR_WIDTH_DOUBLE)⌋₊

/-- The value that the loop of `display_tic` stores in `_next_tic_count`, in
binary64, for the value `tic` of `++_tic`. -/
def simple_progress_display.next_tic_count_binary64 (tic expected_count : Nat) : Nat :=
  ⌊binary64_round
    (binary64_round (binary64_round (tic : ℚ)
        / simple_progress_display.PROGRESS_BAR_WIDTH_DOUBLE)
      * binary64_round (expected_count : ℚ))⌋₊

/-- The `while(_tic < tics_needed)` loop of `display_tic` in binary64, run for
at most `fuel` iterations. -/
def simple_progress_display.display_tic_loop_binary64 (tics_needed : Nat) :
    Nat → simple_progress_display → simple_progress_display
  | 0, s => s
  | fuel + 1, s =>
    if s._tic < tics_needed then
      simple_progress_display.display_tic_loop_binary64 tics_needed fuel
        { s with
          out := s.out ++ ['*']
          _tic := s._tic + 1
          _next_tic_count :=
            simple_progress_display.next_tic_count_binary64 (s._tic + 1) s._expected_count }
    else s

/-- `display_tic()` in binary64: the loop gets `tics_needed - _tic`
iterations, the number it takes for `_tic` to reach `tics_needed`. -/
def simple_progress_display.display_tic_binary64 (s : simple_progress_display) :
    simple_progress_display :=
  let tics_needed : Nat :=
    simple_progress_display.tics_needed_binary64 s._count s._expected_count
  simple_progress_display.display_tic_loop_binary64 tics_needed (tics_needed - s._tic) s

/-- `operator++()` in binary64. -/
def simple_progress_display.increment_binary64 (s : simple_progress_display) :
    simple_progress_display :=
  if s._expected_count = 0 then s
  else
    let s1 := { s with _count := s._count + 1 }
    if s1._count ≥ s1._next_tic_count then s1.display_tic_binary64 else s1

end Progress

section Theorems

variable {α : Type} [LinearOrderedField α]

/-- C1: for all `x_bad`, `x_good`, `x`, `slope_step` equals the reference ramp
with its two orientations: rising when `x_bad < x_good`, falling otherwise. -/
theorem slope_step_eq_reference (x_bad x_good x : α) :
    slope_step x_bad x_good x = slope_step_reference x_bad x_good x := by
  unfold slope_step slope_step_guard slope_step_reference
  split_ifs <;> rfl

/-- C2: for all `x_bad`, `x_good`, `x`, also when `x_bad = x_good`, the value
of `slope_step` lies in `[0, 1]`, and the linear formula is only reached with a
nonzero denominator `x_good - x_bad`. -/
theorem slope_step_mem_unit_interval (x_bad x_good x : α) :
    0 ≤ slope_step x_bad x_good x ∧ slope_step x_bad x_good x ≤ 1 ∧
      (slope_step_guard x_bad x_good x = none → x_good - x_bad ≠ 0) := by
  unfold slope_step slope_step_guard
  split_ifs with h1 h2 h3 h4 h5
  · simp
  · simp
  · have hd : 0 < x_good - x_bad := sub_pos.mpr h1
    have h2' : x_bad < x := not_le.mp h2
    have h3' : x < x_good := not_le.mp h3
    refine ⟨div_nonneg (by linarith) hd.le, ?_, fun _ => hd.ne'⟩
    show (x - x_bad) / (x_good - x_bad) ≤ 1
    rw [div_le_one hd]
    linarith
  · simp
  · simp
  · have h4' : x < x_bad := not_le.mp h4
    have h5' : x_good < x := not_le.mp h5
    have hd : x_good - x_bad < 0 := by linarith
    refine ⟨div_nonneg_of_nonpos (by linarith) hd.le, ?_, fun _ => hd.ne⟩
    show (x - x_bad) / (x_good - x_bad) ≤ 1
    rw [div_le_one_of_neg hd]
    linarith

theorem optimal_distance_comm (E : Externals α) (t1 t2 : Nat) :
    optimal_distance E t1 t2 = optimal_distance E t2 t1 := by
  unfold optimal_distance
  exact add_comm _ _

/-- C3, the claim fails at `x = 5`: with the limits of binary64,
`smooth_div(5, 0)` is `-max_fl`, not `+max_fl`, although `|5| ≥ epsilon_fl`
and `5 > 0`. -/
theorem smooth_div_five_zero_negative :
    (sample_externals : Externals ℚ).epsilon_fl ≤ |(5 : ℚ)| ∧ (0 : ℚ) < 5 ∧
      smooth_div (sample_externals : Externals ℚ) 5 0
        = -(sample_externals : Externals ℚ).max_fl ∧
      smooth_div (sample_externals : Externals ℚ) 5 0
        ≠ (sample_externals : Externals ℚ).max_fl := by
  have h : smooth_div (sample_externals : Externals ℚ) 5 0
      = -(sample_externals : Externals ℚ).max_fl := by
    simp only [smooth_div, sample_externals]
    norm_num
  refine ⟨?_, by norm_num, h, ?_⟩
  · simp only [sample_externals]
    norm_num
  · rw [h]
    simp only [sample_externals]
    norm_num

/-- C3, as amended: with `epsilon_fl > 0`, for every `x` with
`|x| ≥ epsilon_fl`, `smooth_div(x, 0)` is the sentinel `-max_fl`, whatever the
sign of `x`: the sign is chosen by `x*y > 0`, which is false at `y = 0`. -/
theorem smooth_div_zero_denominator (E : Externals α) (hε : 0 < E.epsilon_fl) (x : α)
    (hx : E.epsilon_fl ≤ |x|) : smooth_div E x 0 = -E.max_fl := by
  unfold smooth_div
  rw [if_neg (not_lt.mpr hx), abs_zero, if_pos hε, mul_zero, if_neg (lt_irrefl 0)]

theorem smooth_div_zero_denominator_witness :
    smooth_div (sample_externals : Externals ℚ) 5 0
        = -(sample_externals : Externals ℚ).max_fl ∧
      smooth_div (sample_externals : Externals ℚ) (-5) 0
        = -(sample_externals : Externals ℚ).max_fl :=
  ⟨smooth_div_zero_denominator sample_externals (by simp only [sample_externals]; norm_num) 5
      (by simp only [sample_externals]; norm_num),
    smooth_div_zero_denominator sample_externals (by simp only [sample_externals]; norm_num) (-5)
      (by simp only [sample_externals]; norm_num)⟩

/-- C4: for every `x` with `|x| < epsilon_fl` and every `y`, `smooth_div(x, y)`
is exactly `0`: the test on the numerator comes first. -/
theorem smooth_div_small_numerator (E : Externals α) (x y : α) (hx : |x| < E.epsilon_fl) :
    smooth_div E x y = 0 := by
  unfold smooth_div
  rw [if_pos hx]

theorem smooth_div_small_numerator_witness :
    smooth_div (sample_externals : Externals ℚ) 0 0 = 0 ∧
      smooth_div (sample_externals : Externals ℚ) 0 7 = 0 :=
  ⟨smooth_div_small_numerator sample_externals 0 0 (by simp only [sample_externals]; norm_num),
    smooth_div_small_numerator sample_externals 0 7 (by simp only [sample_externals]; norm_num)⟩

/-- C5: over the reals, `gauss(offset, width).eval(t1, t2, r)` is
`exp(-((r - (optimal_distance(t1, t2) + offset)) / width)^2)`; `gauss(0, 0.5)`
is `1` at `r = optimal_distance` and `exp(-1)` at `r = optimal_distance + 0.5`. -/
theorem gauss_eval_formula (E : Externals ℝ) (p : gauss ℝ) (t1 t2 : Nat) (r : ℝ) :
    p.eval Real.exp E t1 t2 r
        = Real.exp (-((r - (optimal_distance E t1 t2 + p.offset)) / p.width) ^ 2) ∧
      (∀ cutoff : ℝ,
        gauss.eval Real.exp E ⟨0, 0.5, cutoff⟩ t1 t2 (optimal_distance E t1 t2) = 1) ∧
      (∀ cutoff : ℝ,
        gauss.eval Real.exp E ⟨0, 0.5, cutoff⟩ t1 t2 (optimal_distance E t1 t2 + 0.5)
          = Real.exp (-1)) := by
  refine ⟨?_, fun cutoff => ?_, fun cutoff => ?_⟩
  · simp only [gauss.eval, gaussian, sqr, pow_two]
  · simp [gauss.eval, gaussian, sqr]
  · simp only [gauss.eval, gaussian, sqr]
    congr 1
    norm_num

/-- C6: `repulsion(offset).eval` is `0` when `r > optimal_distance + offset`
and `(r - (optimal_distance + offset))^2` otherwise; `repulsion(0)` is `1` at
`r = optimal_distance - 1` and `0` at `r = optimal_distance + 0.01`. -/
theorem repulsion_eval_formula (E : Externals α) (p : repulsion α) (t1 t2 : Nat) (r : α) :
    p.eval E t1 t2 r
        = (if r > optimal_distance E t1 t2 + p.offset then 0
            else (r - (optimal_distance E t1 t2 + p.offset)) ^ 2) ∧
      (∀ cutoff : α, repulsion.eval E ⟨0, cutoff⟩ t1 t2 (optimal_distance E t1 t2 - 1) = 1) ∧
      (∀ cutoff : α,
        repulsion.eval E ⟨0, cutoff⟩ t1 t2 (optimal_distance E t1 t2 + 0.01) = 0) := by
  refine ⟨?_, fun cutoff => ?_, fun cutoff => ?_⟩
  · simp only [repulsion.eval, gt_iff_lt, sub_pos, pow_two]
  · simp only [repulsion.eval]
    norm_num
  · simp only [repulsion.eval]
    norm_num

/-- C7: `hydrophobic(good = 0.5, bad = 1.5).eval` is `0` for two hydrophobic
types when `r - optimal_distance ≥ 1.5`, `1` for two hydrophobic types when
`r - optimal_distance ≤ 0.5`, and `0` at every `r` when one of the two types is
not hydrophobic. -/
theorem hydrophobic_eval_default (E : Externals α) (cutoff : α) (t1 t2 : Nat) (r : α) :
    (E.xs_is_hydrophobic t1 = true → E.xs_is_hydrophobic t2 = true →
        r - optimal_distance E t1 t2 ≥ 1.5 →
        hydrophobic.eval E ⟨0.5, 1.5, cutoff⟩ t1 t2 r = 0) ∧
      (E.xs_is_hydrophobic t1 = true → E.xs_is_hydrophobic t2 = true →
        r - optimal_distance E t1 t2 ≤ 0.5 →
        hydrophobic.eval E ⟨0.5, 1.5, cutoff⟩ t1 t2 r = 1) ∧
      (E.xs_is_hydrophobic t1 = false ∨ E.xs_is_hydrophobic t2 = false →
        hydrophobic.eval E ⟨0.5, 1.5, cutoff⟩ t1 t2 r = 0) := by
  have hlt : ¬ ((1.5 : α) < 0.5) := by norm_num
  refine ⟨fun h1 h2 hr => ?_, fun h1 h2 hr => ?_, fun h => ?_⟩
  · simp only [hydrophobic.eval, h1, h2, Bool.and_self, if_true, slope_step, slope_step_guard,
      if_neg hlt, if_pos hr]
  · have hr' : ¬ (r - optimal_distance E t1 t2 ≥ 1.5) := by
      intro h
      have : (1.5 : α) ≤ 0.5 := le_trans h hr
      norm_num at this
    simp only [hydrophobic.eval, h1, h2, Bool.and_self, if_true, slope_step, slope_step_guard,
      if_neg hlt, if_neg hr', if_pos hr]
  · rcases h with h | h <;> simp [hydrophobic.eval, h]

theorem hydrophobic_eval_default_witness :
    hydrophobic.eval (sample_externals : Externals ℚ) ⟨0.5, 1.5, 8⟩ 0 0 (3.8 + 2.0) = 0 ∧
      hydrophobic.eval (sample_externals : Externals ℚ) ⟨0.5, 1.5, 8⟩ 0 0 (3.8 + 0.5) = 1 ∧
      hydrophobic.eval (sample_externals : Externals ℚ) ⟨0.5, 1.5, 8⟩ 0 2 4 = 0 :=
  ⟨(hydrophobic_eval_default sample_externals 8 0 0 (3.8 + 2.0)).1 rfl rfl
      (by simp only [optimal_distance, sample_externals]; norm_num),
    (hydrophobic_eval_default sample_externals 8 0 0 (3.8 + 0.5)).2.1 rfl rfl
      (by simp only [optimal_distance, sample_externals]; norm_num),
    (hydrophobic_eval_default sample_externals 8 0 2 4).2.2 (Or.inr rfl)⟩

/-- C8: over the reals, for two types that are both not hydrophobic,
`desolvation_improved(weight).eval` is `0` for every
`r ≥ optimal_distance + 2.0` and is `weight * 1.0` at `r = optimal_distance`. -/
theorem desolvation_improved_polar (E : Externals ℝ) (p : desolvation_improved ℝ)
    (t1 t2 : Nat) (h1 : E.xs_is_hydrophobic t1 = false) (h2 : E.xs_is_hydrophobic t2 = false) :
    (∀ r : ℝ, r ≥ optimal_distance E t1 t2 + 2.0 → p.eval Real.exp E t1 t2 r = 0) ∧
      p.eval Real.exp E t1 t2 (optimal_distance E t1 t2) = p.weight * 1.0 := by
  refine ⟨fun r hr => ?_, ?_⟩
  · simp only [desolvation_improved.eval]
    rw [if_neg (not_lt.mpr hr)]
  · have hlt : optimal_distance E t1 t2 < optimal_distance E t1 t2 + 2.0 := by norm_num
    simp only [desolvation_improved.eval, desolvation_improved.desolvation_factor, h1, h2,
      gaussian, sqr, if_pos hlt]
    simp

theorem desolvation_improved_polar_witness :
    desolvation_improved.eval Real.exp (sample_externals : Externals ℝ) ⟨0.02, 8⟩ 2 2
        (optimal_distance (sample_externals : Externals ℝ) 2 2 + 3.0) = 0 ∧
      desolvation_improved.eval Real.exp (sample_externals : Externals ℝ) ⟨0.02, 8⟩ 2 2
        (optimal_distance (sample_externals : Externals ℝ) 2 2) = 0.02 * 1.0 :=
  ⟨(desolvation_improved_polar sample_externals ⟨0.02, 8⟩ 2 2 rfl rfl).1 _ (by norm_num),
    (desolvation_improved_polar sample_externals ⟨0.02, 8⟩ 2 2 rfl rfl).2⟩

/-- C9, the claim fails at weight `0`, score `2`, torsion count `10`: the weight
read is `0`, and `num_tors_div.eval` returns `5/3`, not `2`. -/
theorem num_tors_div_weight_zero_changes_score :
    ([0] : List ℚ)[0]? = some 0 ∧
      num_tors_div.eval (sample_externals : Externals ℚ) ⟨10, 0, 0, 0, 0⟩ 2 [0] 0
        = some (5 / 3, 1) ∧
      num_tors_div.eval (sample_externals : Externals ℚ) ⟨10, 0, 0, 0, 0⟩ 2 [0] 0
        ≠ some (2, 1) := by
  have h : num_tors_div.eval (sample_externals : Externals ℚ) ⟨10, 0, 0, 0, 0⟩ 2 [0] 0
      = some (5 / 3, 1) := by
    simp only [num_tors_div.eval, read_iterator, smooth_div, sample_externals]
    norm_num [abs_of_pos]
  refine ⟨rfl, h, ?_⟩
  rw [h]
  norm_num

/-- C9, as amended: when the weight read is `0`, `num_tors_div.eval` returns
`smooth_div(x, 1 + 0.1 * torsionCount / 5)` and advances the cursor; it returns
`x` unchanged when the weight read is `-1`, `epsilon_fl ≤ 1` and
`|x| ≥ epsilon_fl`. -/
theorem num_tors_div_eval_by_weight (E : Externals α) (inp : conf_independent_inputs α)
    (x : α) (v : List α) (i : Nat) :
    (v[i]? = some 0 →
        num_tors_div.eval E inp x v i
          = some (smooth_div E x (1 + 0.1 * inp.num_tors / 5), i + 1)) ∧
      (v[i]? = some (-1) → E.epsilon_fl ≤ 1 → E.epsilon_fl ≤ |x| →
        num_tors_div.eval E inp x v i = some (x, i + 1)) := by
  refine ⟨fun h => ?_, fun h h1 hx => ?_⟩
  · simp only [num_tors_div.eval, read_iterator, h]
    norm_num
  · have h1' : ¬ (|(1 : α)| < E.epsilon_fl) := by
      rw [abs_one]
      exact not_lt.mpr h1
    simp only [num_tors_div.eval, read_iterator, h, smooth_div, neg_add_cancel, mul_zero,
      zero_mul, zero_div, add_zero, if_neg (not_lt.mpr hx), if_neg h1', div_one]

theorem num_tors_div_eval_by_weight_witness :
    num_tors_div.eval (sample_externals : Externals ℚ) ⟨10, 0, 0, 0, 0⟩ 2 [0] 0
        = some (smooth_div (sample_externals : Externals ℚ) 2 (1 + 0.1 * 10 / 5), 0 + 1) ∧
      num_tors_div.eval (sample_externals : Externals ℚ) ⟨10, 0, 0, 0, 0⟩ 2 [-1] 0
        = some (2, 0 + 1) :=
  ⟨(num_tors_div_eval_by_weight sample_externals ⟨10, 0, 0, 0, 0⟩ 2 [0] 0).1 rfl,
    (num_tors_div_eval_by_weight sample_externals ⟨10, 0, 0, 0, 0⟩ 2 [-1] 0).2 rfl
      (by simp only [sample_externals]; norm_num) (by simp only [sample_externals]; norm_num)⟩

theorem ad4_solvation_eval_comm (exp : α → α) (E : Externals α) (p : ad4_solvation α)
    (a b : atom_base α) (r : α) : p.eval exp E a b r = p.eval exp E b a r := by
  unfold ad4_solvation.eval
  cases ha : E.not_max a.charge <;> cases hb : E.not_max b.charge <;>
    cases hsa : solvation_parameter E a <;> cases hsb : solvation_parameter E b <;>
    cases hva : volume E a <;> cases hvb : volume E b <;> simp [ha, hb, add_comm]

/-- C10: every pairwise term is symmetric in its two arguments: `gauss`,
`repulsion`, `hydrophobic`, `non_hydrophobic`, `non_dir_h_bond` (for a symmetric
`xs_h_bond_possible`), `halogen_bond`, `pi_stacking`, `sulfur_aromatic`,
`desolvation_improved` and `vdw<i, j>` under a swap of the two types, and
`electrostatic<n>` and `ad4_solvation` under a swap of the two atoms. -/
theorem pairwise_terms_symmetric (exp : α → α) (E : Externals α)
    (hsym : ∀ t1 t2 : Nat, E.xs_h_bond_possible t1 t2 = E.xs_h_bond_possible t2 t1)
    (t1 t2 : Nat) (a b : atom_base α) (r : α) :
    (∀ p : gauss α, p.eval exp E t1 t2 r = p.eval exp E t2 t1 r) ∧
      (∀ p : repulsion α, p.eval E t1 t2 r = p.eval E t2 t1 r) ∧
      (∀ p : hydrophobic α, p.eval E t1 t2 r = p.eval E t2 t1 r) ∧
      (∀ p : non_hydrophobic α, p.eval E t1 t2 r = p.eval E t2 t1 r) ∧
      (∀ p : non_dir_h_bond α, p.eval E t1 t2 r = p.eval E t2 t1 r) ∧
      (∀ p : halogen_bond α, p.eval E t1 t2 r = p.eval E t2 t1 r) ∧
      (∀ p : pi_stacking α, p.eval E t1 t2 r = p.eval E t2 t1 r) ∧
      (∀ p : sulfur_aromatic α, p.eval E t1 t2 r = p.eval E t2 t1 r) ∧
      (∀ p : desolvation_improved α, p.eval exp E t1 t2 r = p.eval exp E t2 t1 r) ∧
      (∀ (i j : Nat) (p : vdw α), p.eval i j E t1 t2 r = p.eval i j E t2 t1 r) ∧
      (∀ (n : Nat) (p : electrostatic α), p.eval n E a b r = p.eval n E b a r) ∧
      (∀ p : ad4_solvation α, p.eval exp E a b r = p.eval exp E b a r) := by
  have hd := optimal_distance_comm E t1 t2
  refine ⟨fun p => ?_, fun p => ?_, fun p => ?_, fun p => ?_, fun p => ?_, fun p => ?_,
    fun p => ?_, fun p => ?_, fun p => ?_, fun i j p => ?_, fun n p => ?_, fun p => ?_⟩
  · simp only [gauss.eval, hd]
  · simp only [repulsion.eval, hd]
  · simp only [hydrophobic.eval, hd, Bool.and_comm (E.xs_is_hydrophobic t1)]
  · simp only [non_hydrophobic.eval, hd, Bool.and_comm (!E.xs_is_hydrophobic t1)]
  · simp only [non_dir_h_bond.eval, hd, hsym t1 t2]
  · simp only [halogen_bond.eval, hd,
      Bool.or_comm (E.xs_is_halogen t1 && E.xs_is_acceptor t2)]
  · simp only [pi_stacking.eval, hd, Bool.and_comm (E.xs_is_aromatic t1)]
  · simp only [sulfur_aromatic.eval, hd,
      Bool.or_comm (t1 == E.XS_TYPE_S_P && E.xs_is_aromatic t2)]
  · have hf : desolvation_improved.desolvation_factor E t1 t2
        = desolvation_improved.desolvation_factor E t2 t1 := by
      simp only [desolvation_improved.desolvation_factor,
        Bool.and_comm (E.xs_is_hydrophobic t1), Bool.and_comm (!E.xs_is_hydrophobic t1)]
    simp only [desolvation_improved.eval, hd, hf]
  · simp only [vdw.eval, hd]
  · simp only [electrostatic.eval, mul_comm a.charge]
  · exact ad4_solvation_eval_comm exp E p a b r

theorem pairwise_terms_symmetric_witness :
    hydrophobic.eval (sample_externals : Externals ℚ) ⟨0.5, 1.5, 8⟩ 0 13 4
        = hydrophobic.eval (sample_externals : Externals ℚ) ⟨0.5, 1.5, 8⟩ 13 0 4 ∧
      non_dir_h_bond.eval (sample_externals : Externals ℚ) ⟨-0.7, 0, 8⟩ 3 8 3
        = non_dir_h_bond.eval (sample_externals : Externals ℚ) ⟨-0.7, 0, 8⟩ 8 3 3 ∧
      electrostatic.eval 2 (sample_externals : Externals ℚ) ⟨100, 8⟩ ⟨0, 0, 1 / 2⟩
          ⟨7, 8, -1 / 3⟩ 3
        = electrostatic.eval 2 (sample_externals : Externals ℚ) ⟨100, 8⟩ ⟨7, 8, -1 / 3⟩
          ⟨0, 0, 1 / 2⟩ 3 :=
  have h := pairwise_terms_symmetric (fun x : ℚ => x) (sample_externals : Externals ℚ)
    (fun t1 t2 => by simp only [sample_externals]; exact Bool.or_comm _ _)
  ⟨(h 0 13 ⟨0, 0, 0⟩ ⟨0, 0, 0⟩ 4).2.2.1 ⟨0.5, 1.5, 8⟩,
    (h 3 8 ⟨0, 0, 0⟩ ⟨0, 0, 0⟩ 3).2.2.2.2.1 ⟨-0.7, 0, 8⟩,
    (h 0 0 ⟨0, 0, 1 / 2⟩ ⟨7, 8, -1 / 3⟩ 3).2.2.2.2.2.2.2.2.2.2.1 2 ⟨100, 8⟩⟩

/-- C11: the registry built by `everything::everything()` holds, in this order,
the nine pairwise terms `(1, gauss(0, 0.5, 8))`, `(1, gauss(3, 2.0, 8))`,
`(1, repulsion(0, 8))`, `(1, hydrophobic(0.5, 1.5, 8))`,
`(1, non_dir_h_bond(-0.7, 0, 8))`, `(0, halogen_bond(-0.5, 0.5, 8))`,
`(0, pi_stacking(-0.4, 1.0, 8))`, `(0, sulfur_aromatic(-0.3, 0.8, 8))`,
`(0, desolvation_improved(0.02, 8))` and no other pairwise term, and the one
conformation-independent term `(1, num_tors_div)`; every registered pairwise
term has cutoff `8`. -/
theorem everything_registers_default_terms :
    (everything : terms α).usable_terms
        = [(1, .gauss ⟨0, 0.5, 8⟩), (1, .gauss ⟨3, 2.0, 8⟩), (1, .repulsion ⟨0, 8⟩),
            (1, .hydrophobic ⟨0.5, 1.5, 8⟩), (1, .non_dir_h_bond ⟨-0.7, 0, 8⟩),
            (0, .halogen_bond ⟨-0.5, 0.5, 8⟩), (0, .pi_stacking ⟨-0.4, 1.0, 8⟩),
            (0, .sulfur_aromatic ⟨-0.3, 0.8, 8⟩), (0, .desolvation_improved ⟨0.02, 8⟩)] ∧
      (everything : terms α).distance_additive_terms = [] ∧
      (everything : terms α).usable_terms.length = 9 ∧
      (everything : terms α).conf_independent_terms = [(1, .num_tors_div)] ∧
      (∀ e ∈ (everything : terms α).usable_terms, e.2.cutoff = 8) := by
  have h0 : (0.0 : α) = 0 := by norm_num
  have hu : (everything : terms α).usable_terms
      = [(1, .gauss ⟨0, 0.5, 8⟩), (1, .gauss ⟨3, 2.0, 8⟩), (1, .repulsion ⟨0, 8⟩),
          (1, .hydrophobic ⟨0.5, 1.5, 8⟩), (1, .non_dir_h_bond ⟨-0.7, 0, 8⟩),
          (0, .halogen_bond ⟨-0.5, 0.5, 8⟩), (0, .pi_stacking ⟨-0.4, 1.0, 8⟩),
          (0, .sulfur_aromatic ⟨-0.3, 0.8, 8⟩), (0, .desolvation_improved ⟨0.02, 8⟩)] := by
    simp only [everything, terms.add_usable, terms.add_conf_independent, terms.empty,
      List.nil_append, List.cons_append, h0]
  refine ⟨hu, rfl, ?_, rfl, ?_⟩
  · rw [hu]
    rfl
  · rw [hu]
    intro e he
    simp only [List.mem_cons, List.mem_singleton, List.not_mem_nil, or_false] at he
    rcases he with h | h | h | h | h | h | h | h | h <;> rw [h] <;> rfl

/-- C12: each of the nine conformation-independent terms reports `size() = 1`;
when the cursor points at a weight its `eval` returns with the cursor advanced
by exactly one position; and the result is the same on every weight vector that
has the same weight at the starting position of the cursor. -/
theorem conf_independent_reads_one_weight (sqrt : α → α) (E : Externals α)
    (t : conf_independent) (inp : conf_independent_inputs α) (x : α) (v : List α) (i : Nat) :
    t.size = 1 ∧
      (∀ y : α, v[i]? = some y → ∃ s : α, t.eval sqrt E inp x v i = some (s, i + 1)) ∧
      (∀ (v1 : List α) (i1 : Nat), v1[i1]? = v[i]? →
        (t.eval sqrt E inp x v1 i1).map Prod.fst = (t.eval sqrt E inp x v i).map Prod.fst) := by
  refine ⟨by cases t <;> rfl, fun y hy => ?_, fun v1 i1 h => ?_⟩
  · cases t <;>
      simp [conf_independent.eval, num_tors_add.eval, num_tors_sqr.eval, num_tors_sqrt.eval,
        num_tors_div.eval, ligand_length.eval, num_ligands.eval, num_heavy_atoms_div.eval,
        num_heavy_atoms.eval, num_hydrophobic_atoms.eval, read_iterator, hy]
  · cases hv : v[i]? <;> rw [hv] at h <;> cases t <;>
      simp [conf_independent.eval, num_tors_add.eval, num_tors_sqr.eval, num_tors_sqrt.eval,
        num_tors_div.eval, ligand_length.eval, num_ligands.eval, num_heavy_atoms_div.eval,
        num_heavy_atoms.eval, num_hydrophobic_atoms.eval, read_iterator, hv, h]

theorem conf_independent_reads_one_weight_witness :
    (∃ s : ℚ, conf_independent.eval (fun x : ℚ => x) sample_externals .num_tors_div
        ⟨10, 0, 0, 0, 0⟩ 2 [7, 0, 9] 1 = some (s, 1 + 1)) ∧
      (conf_independent.eval (fun x : ℚ => x) sample_externals .num_tors_div
          ⟨10, 0, 0, 0, 0⟩ 2 [0, 5] 0).map Prod.fst
        = (conf_independent.eval (fun x : ℚ => x) sample_externals .num_tors_div
          ⟨10, 0, 0, 0, 0⟩ 2 [7, 0, 9] 1).map Prod.fst :=
  ⟨(conf_independent_reads_one_weight (fun x : ℚ => x) sample_externals .num_tors_div
      ⟨10, 0, 0, 0, 0⟩ 2 [7, 0, 9] 1).2.1 0 rfl,
    (conf_independent_reads_one_weight (fun x : ℚ => x) sample_externals .num_tors_div
      ⟨10, 0, 0, 0, 0⟩ 2 [7, 0, 9] 1).2.2 [0, 5] 0 rfl⟩

theorem int_pow_eq_pow (n : Nat) (x : α) : int_pow n x = x ^ n := by
  induction n with
  | zero => simp [int_pow]
  | succ k ih => rw [int_pow, ih, pow_succ]

/-- C13, the claim fails for `electrostatic<1>(cap = 100)` with two unit
charges at `r = 0`: the power `r^1 = 0` is below `epsilon_fl`, and `eval`
returns `100`, not `q1*q2 = 1`. -/
theorem electrostatic_underflow_returns_cap :
    int_pow 1 (0 : ℚ) < (sample_externals : Externals ℚ).epsilon_fl ∧
      electrostatic.eval 1 (sample_externals : Externals ℚ) ⟨100, 8⟩ ⟨0, 0, 1⟩ ⟨0, 0, 1⟩ 0
        = 100 ∧
      electrostatic.eval 1 (sample_externals : Externals ℚ) ⟨100, 8⟩ ⟨0, 0, 1⟩ ⟨0, 0, 1⟩ 0
        ≠ 1 * 1 := by
  have h : electrostatic.eval 1 (sample_externals : Externals ℚ) ⟨100, 8⟩ ⟨0, 0, 1⟩
      ⟨0, 0, 1⟩ 0 = 100 := by
    simp only [electrostatic.eval, int_pow, sample_externals]
    norm_num
  refine ⟨?_, h, ?_⟩
  · simp only [int_pow, sample_externals]
    norm_num
  · rw [h]
    norm_num

/-- C13, as amended: for all charges `q1`, `q2`, every `cap` and every `r`
whose `n`-th power is below `epsilon_fl`, `electrostatic<n>(cap).eval` returns
`q1*q2*cap`. -/
theorem electrostatic_eval_underflow (n : Nat) (E : Externals α) (p : electrostatic α)
    (a b : atom_base α) (r : α) (h : r ^ n < E.epsilon_fl) :
    p.eval n E a b r = a.charge * b.charge * p.cap := by
  simp only [electrostatic.eval, int_pow_eq_pow, if_pos h]

theorem electrostatic_eval_underflow_witness :
    electrostatic.eval 2 (sample_externals : Externals ℚ) ⟨100, 8⟩ ⟨0, 0, 1 / 2⟩
        ⟨7, 8, -1 / 3⟩ 0 = 1 / 2 * (-1 / 3) * 100 :=
  electrostatic_eval_underflow 2 sample_externals ⟨100, 8⟩ ⟨0, 0, 1 / 2⟩ ⟨7, 8, -1 / 3⟩ 0
    (by simp only [sample_externals]; norm_num)

/-- C14: with `epsilon_fl > 0`, for every `cap > 0`, every `r` and all charges,
`electrostatic<n>(cap).eval` is `q1*q2*k` for some `k` with `0 < k ≤ cap`; so
its magnitude is at most `cap * |q1*q2|`, and it is zero or has the sign of
`q1*q2`. -/
theorem electrostatic_eval_capped (n : Nat) (E : Externals α) (hε : 0 < E.epsilon_fl)
    (p : electrostatic α) (hcap : 0 < p.cap) (a b : atom_base α) (r : α) :
    (∃ k : α, 0 < k ∧ k ≤ p.cap ∧ p.eval n E a b r = a.charge * b.charge * k) ∧
      |p.eval n E a b r| ≤ p.cap * |a.charge * b.charge| ∧
      (p.eval n E a b r = 0 ∨
        (0 < p.eval n E a b r ∧ 0 < a.charge * b.charge) ∨
        (p.eval n E a b r < 0 ∧ a.charge * b.charge < 0)) := by
  have hk : ∃ k : α, 0 < k ∧ k ≤ p.cap ∧ p.eval n E a b r = a.charge * b.charge * k := by
    simp only [electrostatic.eval, int_pow_eq_pow]
    split_ifs with h
    · exact ⟨p.cap, hcap, le_refl _, rfl⟩
    · have hpos : 0 < r ^ n := lt_of_lt_of_le hε (not_lt.mp h)
      exact ⟨min p.cap (1 / r ^ n), lt_min hcap (one_div_pos.mpr hpos), min_le_left _ _, rfl⟩
  obtain ⟨k, hk0, hkc, hke⟩ := hk
  refine ⟨⟨k, hk0, hkc, hke⟩, ?_, ?_⟩
  · rw [hke, abs_mul, abs_of_pos hk0, mul_comm]
    exact mul_le_mul_of_nonneg_right hkc (abs_nonneg _)
  · rw [hke]
    rcases lt_trichotomy (a.charge * b.charge) 0 with hq | hq | hq
    · exact Or.inr (Or.inr ⟨mul_neg_of_neg_of_pos hq hk0, hq⟩)
    · exact Or.inl (by rw [hq, zero_mul])
    · exact Or.inr (Or.inl ⟨mul_pos hq hk0, hq⟩)

theorem electrostatic_eval_capped_witness :
    |electrostatic.eval 2 (sample_externals : Externals ℚ) ⟨100, 8⟩ ⟨0, 0, 1 / 2⟩
        ⟨7, 8, -1 / 3⟩ 3| ≤ 100 * |(1 / 2 : ℚ) * (-1 / 3)| :=
  (electrostatic_eval_capped 2 (sample_externals : Externals ℚ)
    (by simp only [sample_externals]; norm_num) ⟨100, 8⟩ (by norm_num)
    ⟨0, 0, 1 / 2⟩ ⟨7, 8, -1 / 3⟩ 3).2.1

theorem vdw_shifted_r_in_window (p : vdw α) (d0 r : α) (h : |r - d0| ≤ p.smoothing) :
    p.shifted_r d0 r = d0 := by
  have h1 := (abs_le.mp h).1
  have h2 := (abs_le.mp h).2
  unfold vdw.shifted_r
  rw [if_neg (by linarith), if_neg (by linarith)]

/-- C15: for `i ≠ j` and `epsilon_fl > 0`, the coefficients that `vdw<i, j>`
computes at depth `1` are `c_i = d0^i * j/(i-j)` and `c_j = d0^j * i/(j-i)`;
when `d0^i > epsilon_fl` and `d0^j > epsilon_fl` they satisfy
`c_i/d0^i + c_j/d0^j = -1`, and `vdw<i, j>(smoothing, cap).eval` returns
`min(cap, -1)` at every `r` with `|r - d0| ≤ smoothing`. -/
theorem vdw_well_depth_at_optimum (i j : Nat) (hij : i ≠ j) (E : Externals α)
    (hε : 0 < E.epsilon_fl) (p : vdw α) (t1 t2 : Nat)
    (hi : optimal_distance E t1 t2 ^ i > E.epsilon_fl)
    (hj : optimal_distance E t1 t2 ^ j > E.epsilon_fl) :
    (find_vdw_coefficients i j (optimal_distance E t1 t2) 1).1
        = optimal_distance E t1 t2 ^ i * (j : α) / ((i : α) - (j : α)) ∧
      (find_vdw_coefficients i j (optimal_distance E t1 t2) 1).2
        = optimal_distance E t1 t2 ^ j * (i : α) / ((j : α) - (i : α)) ∧
      (find_vdw_coefficients i j (optimal_distance E t1 t2) 1).1 / optimal_distance E t1 t2 ^ i
        + (find_vdw_coefficients i j (optimal_distance E t1 t2) 1).2
            / optimal_distance E t1 t2 ^ j = -1 ∧
      (∀ r : α, |r - optimal_distance E t1 t2| ≤ p.smoothing →
        p.eval i j E t1 t2 r = min p.cap (-1)) := by
  have hi0 : optimal_distance E t1 t2 ^ i ≠ 0 := (lt_trans hε hi).ne'
  have hj0 : optimal_distance E t1 t2 ^ j ≠ 0 := (lt_trans hε hj).ne'
  have hne : (i : α) - (j : α) ≠ 0 := sub_ne_zero.mpr (Nat.cast_injective.ne hij)
  have hne' : (j : α) - (i : α) ≠ 0 := sub_ne_zero.mpr (Nat.cast_injective.ne hij.symm)
  have hsum : (find_vdw_coefficients i j (optimal_distance E t1 t2) 1).1
        / optimal_distance E t1 t2 ^ i
      + (find_vdw_coefficients i j (optimal_distance E t1 t2) 1).2
        / optimal_distance E t1 t2 ^ j = -1 := by
    simp only [find_vdw_coefficients, int_pow_eq_pow, mul_one]
    field_simp
    ring
  refine ⟨?_, ?_, hsum, fun r hr => ?_⟩
  · simp only [find_vdw_coefficients, int_pow_eq_pow, mul_one]
  · simp only [find_vdw_coefficients, int_pow_eq_pow, mul_one]
  · simp only [vdw.eval, vdw_shifted_r_in_window p _ r hr]
    rw [if_pos ⟨by rw [int_pow_eq_pow]; exact hi, by rw [int_pow_eq_pow]; exact hj⟩]
    simp only [int_pow_eq_pow] at hsum ⊢
    rw [hsum]

theorem vdw_well_depth_at_optimum_witness :
    vdw.eval 4 8 (sample_externals : Externals ℚ) ⟨0, 100, 8⟩ 0 0 (19 / 5) = min 100 (-1) :=
  (vdw_well_depth_at_optimum 4 8 (by decide) (sample_externals : Externals ℚ)
    (by simp only [sample_externals]; norm_num) ⟨0, 100, 8⟩ 0 0
    (by simp only [optimal_distance, sample_externals]; norm_num)
    (by simp only [optimal_distance, sample_externals]; norm_num)).2.2.2 (19 / 5)
    (by simp only [optimal_distance, sample_externals]; norm_num)

/-- C16, the claim fails for `vdw(smoothing = 1)` with `d0 = 4`: at `r = 10`
the distance used is `9`, while `10` clamped into `[3, 5]` is `5`; at
`r = 9/2`, inside the interval, the distance used is `4`, not `9/2`. -/
theorem vdw_shifted_r_not_clamp :
    (0 : ℚ) ≤ (⟨1, 100, 8⟩ : vdw ℚ).smoothing ∧
      vdw.shifted_r (⟨1, 100, 8⟩ : vdw ℚ) 4 10 = 9 ∧
      clamp_into ((4 : ℚ) - 1) (4 + 1) 10 = 5 ∧
      vdw.shifted_r (⟨1, 100, 8⟩ : vdw ℚ) 4 (9 / 2) = 4 ∧
      clamp_into ((4 : ℚ) - 1) (4 + 1) (9 / 2) = 9 / 2 ∧
      vdw.shifted_r (⟨1, 100, 8⟩ : vdw ℚ) 4 10 ≠ clamp_into ((4 : ℚ) - 1) (4 + 1) 10 := by
  have h1 : vdw.shifted_r (⟨1, 100, 8⟩ : vdw ℚ) 4 10 = 9 := by
    simp only [vdw.shifted_r]
    norm_num
  have h2 : clamp_into ((4 : ℚ) - 1) (4 + 1) 10 = 5 := by
    simp only [clamp_into]
    norm_num
  refine ⟨by norm_num, h1, h2, ?_, ?_, ?_⟩
  · simp only [vdw.shifted_r]
    norm_num
  · simp only [clamp_into]
    norm_num
  · rw [h1, h2]
    norm_num

/-- C16, as amended: for every `r`, `d0` and `smoothing ≥ 0`, the distance at
which `vdw<i, j>.eval` evaluates the power law is `r` moved toward `d0` by
`smoothing`: `r - smoothing` when `r > d0 + smoothing`, `r + smoothing` when
`r < d0 - smoothing`, and `d0` when `r` is in
`[d0 - smoothing, d0 + smoothing]`; that is, `r` minus the clamp of `r - d0`
into `[-smoothing, smoothing]`. -/
theorem vdw_eval_uses_shifted_distance (i j : Nat) (E : Externals α) (p : vdw α)
    (hs : 0 ≤ p.smoothing) (t1 t2 : Nat) (r : α) :
    p.eval i j E t1 t2 r
        = (if p.shifted_r (optimal_distance E t1 t2) r ^ i > E.epsilon_fl ∧
              p.shifted_r (optimal_distance E t1 t2) r ^ j > E.epsilon_fl then
            min p.cap
              ((find_vdw_coefficients i j (optimal_distance E t1 t2) 1).1
                  / p.shifted_r (optimal_distance E t1 t2) r ^ i
                + (find_vdw_coefficients i j (optimal_distance E t1 t2) 1).2
                  / p.shifted_r (optimal_distance E t1 t2) r ^ j)
          else p.cap) ∧
      (r > optimal_distance E t1 t2 + p.smoothing →
        p.shifted_r (optimal_distance E t1 t2) r = r - p.smoothing) ∧
      (r < optimal_distance E t1 t2 - p.smoothing →
        p.shifted_r (optimal_distance E t1 t2) r = r + p.smoothing) ∧
      (optimal_distance E t1 t2 - p.smoothing ≤ r → r ≤ optimal_distance E t1 t2 + p.smoothing →
        p.shifted_r (optimal_distance E t1 t2) r = optimal_distance E t1 t2) ∧
      p.shifted_r (optimal_distance E t1 t2) r
        = r - clamp_into (-p.smoothing) p.smoothing (r - optimal_distance E t1 t2) := by
  refine ⟨?_, fun h => ?_, fun h => ?_, fun h1 h2 => ?_, ?_⟩
  · simp only [vdw.eval, int_pow_eq_pow]
  · simp only [vdw.shifted_r, if_pos h]
  · have h' : ¬ (r > optimal_distance E t1 t2 + p.smoothing) := by
      intro hgt
      linarith
    simp only [vdw.shifted_r, if_neg h', if_pos h]
  · simp only [vdw.shifted_r, if_neg (not_lt.mpr h2), if_neg (not_lt.mpr h1)]
  · unfold vdw.shifted_r clamp_into
    split_ifs with h1 h2
    · rw [min_eq_left (by linarith), max_eq_right (by linarith)]
    · rw [min_eq_right (by linarith), max_eq_left (by linarith)]
      ring
    · rw [min_eq_right (by linarith), max_eq_right (by linarith)]
      ring

theorem vdw_eval_uses_shifted_distance_witness :
    vdw.shifted_r (⟨1, 100, 8⟩ : vdw ℚ) (optimal_distance sample_externals 0 0) 10 = 10 - 1 ∧
      vdw.shifted_r (⟨1, 100, 8⟩ : vdw ℚ) (optimal_distance sample_externals 0 0) 2 = 2 + 1 ∧
      vdw.shifted_r (⟨1, 100, 8⟩ : vdw ℚ) (optimal_distance sample_externals 0 0) 4
        = optimal_distance sample_externals 0 0 :=
  ⟨(vdw_eval_uses_shifted_distance 4 8 (sample_externals : Externals ℚ) ⟨1, 100, 8⟩
      (by norm_num) 0 0 10).2.1 (by simp only [optimal_distance, sample_externals]; norm_num),
    (vdw_eval_uses_shifted_distance 4 8 (sample_externals : Externals ℚ) ⟨1, 100, 8⟩
      (by norm_num) 0 0 2).2.2.1 (by simp only [optimal_distance, sample_externals]; norm_num),
    (vdw_eval_uses_shifted_distance 4 8 (sample_externals : Externals ℚ) ⟨1, 100, 8⟩
      (by norm_num) 0 0 4).2.2.2.1
      (by simp only [optimal_distance, sample_externals]; norm_num)
      (by simp only [optimal_distance, sample_externals]; norm_num)⟩

/-- C17: `solvation_parameter` returns the table value when
`ad < AD_TYPE_SIZE`, the metal constant when `ad ≥ AD_TYPE_SIZE` and
`xs = XS_TYPE_Met_D`, and fails in every other case; and `ad4_solvation.eval`
fails, returning no value, whenever one of the two atoms has
`ad ≥ AD_TYPE_SIZE` and an `xs` type other than `XS_TYPE_Met_D`. -/
theorem ad4_solvation_rejects_unknown_type (exp : α → α) (E : Externals α) :
    (∀ a : atom_base α,
        (a.ad < E.AD_TYPE_SIZE → solvation_parameter E a = some (E.ad_solvation a.ad)) ∧
        (E.AD_TYPE_SIZE ≤ a.ad → a.xs = E.XS_TYPE_Met_D →
          solvation_parameter E a = some E.metal_solvation_parameter) ∧
        ((solvation_parameter E a).isSome = true ↔
          (a.ad < E.AD_TYPE_SIZE ∨ a.xs = E.XS_TYPE_Met_D))) ∧
      (∀ (p : ad4_solvation α) (a b : atom_base α) (r : α),
        (E.AD_TYPE_SIZE ≤ a.ad ∧ a.xs ≠ E.XS_TYPE_Met_D) ∨
          (E.AD_TYPE_SIZE ≤ b.ad ∧ b.xs ≠ E.XS_TYPE_Met_D) →
        p.eval exp E a b r = none) := by
  have hnone : ∀ a : atom_base α, E.AD_TYPE_SIZE ≤ a.ad ∧ a.xs ≠ E.XS_TYPE_Met_D →
      solvation_parameter E a = none := by
    intro a h
    simp only [solvation_parameter, if_neg (not_lt.mpr h.1), if_neg h.2]
  refine ⟨fun a => ⟨fun h => ?_, fun h1 h2 => ?_, ?_⟩, fun p a b r h => ?_⟩
  · simp only [solvation_parameter, if_pos h]
  · simp only [solvation_parameter, if_neg (not_lt.mpr h1), if_pos h2]
  · unfold solvation_parameter
    split_ifs with h1 h2
    · simp [h1]
    · simp [h2]
    · simp [h1, h2]
  · rcases h with h | h
    · cases ha : E.not_max a.charge <;> cases hb : E.not_max b.charge <;>
        simp [ad4_solvation.eval, hnone a h, ha, hb]
    · cases ha : E.not_max a.charge <;> cases hb : E.not_max b.charge <;>
        cases hsa : solvation_parameter E a <;>
        simp [ad4_solvation.eval, hnone b h, ha, hb, hsa]

theorem ad4_solvation_rejects_unknown_type_witness :
    solvation_parameter (sample_externals : Externals ℚ) ⟨0, 0, 0⟩ = some (-0.00143) ∧
      solvation_parameter (sample_externals : Externals ℚ) ⟨20, 16, 0⟩ = some (-0.00110) ∧
      ad4_solvation.eval (fun x : ℚ => x) sample_externals ⟨3.6, 0.01097, true, 8⟩
        ⟨20, 0, 0⟩ ⟨0, 0, 0⟩ 3 = none :=
  have h := ad4_solvation_rejects_unknown_type (fun x : ℚ => x)
    (sample_externals : Externals ℚ)
  ⟨((h.1 ⟨0, 0, 0⟩).1 (by simp only [sample_externals]; norm_num)).trans
      (by simp only [sample_externals]; norm_num),
    (h.1 ⟨20, 16, 0⟩).2.1 (by simp only [sample_externals]; norm_num) rfl,
    h.2 ⟨3.6, 0.01097, true, 8⟩ ⟨20, 0, 0⟩ ⟨0, 0, 0⟩ 3
      (Or.inl ⟨by simp only [sample_externals]; norm_num,
        by simp only [sample_externals]; norm_num⟩)⟩

/-- C20: with `epsilon_fl ≤ 1`, for every weight `w ≥ -1` read at the cursor,
every torsion count `T ≥ 0` and every score `x`, the divisor
`1 + 0.1*(w+1)*T/5` of `num_tors_div.eval` is at least `1`; the result is `0`
when `|x| < epsilon_fl` and `x` divided by the divisor otherwise, never a
sentinel; its magnitude is at most `|x|` and it never has the sign opposite to
`x`. -/
theorem num_tors_div_eval_bounded (E : Externals α) (hε : E.epsilon_fl ≤ 1)
    (inp : conf_independent_inputs α) (hT : 0 ≤ inp.num_tors) (x : α) (v : List α) (i : Nat)
    (w : α) (hw : -1 ≤ w) (hv : v[i]? = some w) :
    1 ≤ 1 + 0.1 * (w + 1) * inp.num_tors / 5 ∧
      ∃ res : α, num_tors_div.eval E inp x v i = some (res, i + 1) ∧
        (|x| < E.epsilon_fl → res = 0) ∧
        (E.epsilon_fl ≤ |x| → res = x / (1 + 0.1 * (w + 1) * inp.num_tors / 5)) ∧
        |res| ≤ |x| ∧ 0 ≤ res * x := by
  have hd : (1 : α) ≤ 1 + 0.1 * (w + 1) * inp.num_tors / 5 := by
    have h1 : (0 : α) ≤ 0.1 * (w + 1) := mul_nonneg (by norm_num) (by linarith)
    have h2 : (0 : α) ≤ 0.1 * (w + 1) * inp.num_tors / 5 :=
      div_nonneg (mul_nonneg h1 hT) (by norm_num)
    linarith
  have hd0 : (0 : α) < 1 + 0.1 * (w + 1) * inp.num_tors / 5 := lt_of_lt_of_le one_pos hd
  have hy : ¬ (|1 + 0.1 * (w + 1) * inp.num_tors / 5| < E.epsilon_fl) := by
    rw [abs_of_pos hd0]
    exact not_lt.mpr (le_trans hε hd)
  have h5 : (5.0 : α) = 5 := by norm_num
  refine ⟨hd, smooth_div E x (1 + 0.1 * (w + 1) * inp.num_tors / 5), ?_, ?_, ?_, ?_, ?_⟩
  · simp only [num_tors_div.eval, read_iterator, hv, h5]
  · intro hx
    simp only [smooth_div, if_pos hx]
  · intro hx
    simp only [smooth_div, if_neg (not_lt.mpr hx), if_neg hy]
  · unfold smooth_div
    split_ifs with hx
    · simp
    · rw [abs_div, abs_of_pos hd0]
      exact div_le_self (abs_nonneg x) hd
  · unfold smooth_div
    split_ifs with hx
    · simp
    · rw [div_mul_eq_mul_div]
      exact div_nonneg (mul_self_nonneg x) hd0.le

theorem num_tors_div_eval_bounded_witness :
    ∃ res : ℚ, num_tors_div.eval (sample_externals : Externals ℚ) ⟨10, 0, 0, 0, 0⟩ 2 [0] 0
        = some (res, 0 + 1) ∧ |res| ≤ |(2 : ℚ)| :=
  have h := (num_tors_div_eval_bounded (sample_externals : Externals ℚ)
    (by simp only [sample_externals]; norm_num) ⟨10, 0, 0, 0, 0⟩ (by norm_num) 2 [0] 0 0
    (by norm_num) rfl).2
  ⟨h.choose, h.choose_spec.1, h.choose_spec.2.2.2.1⟩

theorem vdw_4_8_power_law (d0 u : α) (hu : u ≠ 0) :
    (find_vdw_coefficients 4 8 d0 1).1 / u ^ 4 + (find_vdw_coefficients 4 8 d0 1).2 / u ^ 8
      = ((d0 / u) ^ 4 - 1) ^ 2 - 1 := by
  have h48 : ((4 : ℕ) : α) - ((8 : ℕ) : α) = -4 := by
    push_cast
    norm_num
  have h84 : ((8 : ℕ) : α) - ((4 : ℕ) : α) = 4 := by
    push_cast
    norm_num
  simp only [find_vdw_coefficients, int_pow_eq_pow, h48, h84]
  push_cast
  field_simp
  ring

/-- C21: with `epsilon_fl > 0`, for every type pair, `smoothing`, `cap` and
`r`, `vdw<4, 8>(smoothing, cap).eval` returns a value that is at least
`min(cap, -1)` and at most `cap`; at every nonzero distance `u` the power law
`c_4/u^4 + c_8/u^8` equals `((d0/u)^4 - 1)^2 - 1`, is at least `-1`, and is
`-1` exactly when `u^4 = d0^4`. -/
theorem vdw_4_8_well_depth (E : Externals α) (hε : 0 < E.epsilon_fl) (p : vdw α)
    (t1 t2 : Nat) (r : α) :
    min p.cap (-1) ≤ p.eval 4 8 E t1 t2 r ∧ p.eval 4 8 E t1 t2 r ≤ p.cap ∧
      (∀ u : α, u ≠ 0 →
        (find_vdw_coefficients 4 8 (optimal_distance E t1 t2) 1).1 / u ^ 4
            + (find_vdw_coefficients 4 8 (optimal_distance E t1 t2) 1).2 / u ^ 8
          = ((optimal_distance E t1 t2 / u) ^ 4 - 1) ^ 2 - 1 ∧
        -1 ≤ (find_vdw_coefficients 4 8 (optimal_distance E t1 t2) 1).1 / u ^ 4
            + (find_vdw_coefficients 4 8 (optimal_distance E t1 t2) 1).2 / u ^ 8 ∧
        ((find_vdw_coefficients 4 8 (optimal_distance E t1 t2) 1).1 / u ^ 4
            + (find_vdw_coefficients 4 8 (optimal_distance E t1 t2) 1).2 / u ^ 8 = -1
          ↔ u ^ 4 = optimal_distance E t1 t2 ^ 4)) := by
  have hlaw : ∀ u : α, u ≠ 0 →
      -1 ≤ (find_vdw_coefficients 4 8 (optimal_distance E t1 t2) 1).1 / u ^ 4
        + (find_vdw_coefficients 4 8 (optimal_distance E t1 t2) 1).2 / u ^ 8 := by
    intro u hu
    rw [vdw_4_8_power_law _ u hu]
    have := sq_nonneg ((optimal_distance E t1 t2 / u) ^ 4 - 1)
    linarith
  refine ⟨?_, ?_, fun u hu => ⟨vdw_4_8_power_law _ u hu, hlaw u hu, ?_⟩⟩
  · simp only [vdw.eval, int_pow_eq_pow]
    split_ifs with h
    · have hu : p.shifted_r (optimal_distance E t1 t2) r ≠ 0 := by
        intro h0
        rw [h0] at h
        have := lt_trans hε h.1
        norm_num at this
      exact min_le_min (le_refl _) (hlaw _ hu)
    · exact min_le_left _ _
  · simp only [vdw.eval]
    split_ifs
    · exact min_le_left _ _
    · exact le_refl _
  · rw [vdw_4_8_power_law _ u hu]
    have hu4 : u ^ 4 ≠ 0 := pow_ne_zero 4 hu
    constructor
    · intro h
      have hsq : ((optimal_distance E t1 t2 / u) ^ 4 - 1) ^ 2 = 0 := by linarith
      have h1 : (optimal_distance E t1 t2 / u) ^ 4 = 1 := by
        have := pow_eq_zero_iff (two_ne_zero) |>.mp hsq
        linarith
      rw [div_pow, div_eq_one_iff_eq hu4] at h1
      exact h1.symm
    · intro h
      rw [div_pow, ← h, div_self hu4]
      norm_num

theorem vdw_4_8_well_depth_witness :
    min (100 : ℚ) (-1) ≤ vdw.eval 4 8 (sample_externals : Externals ℚ) ⟨0, 100, 8⟩ 0 0 5 ∧
      vdw.eval 4 8 (sample_externals : Externals ℚ) ⟨0, 100, 8⟩ 0 0 5 ≤ 100 ∧
      (find_vdw_coefficients 4 8 (optimal_distance (sample_externals : Externals ℚ) 0 0) 1).1
          / (5 : ℚ) ^ 4
        + (find_vdw_coefficients 4 8 (optimal_distance (sample_externals : Externals ℚ) 0 0)
            1).2 / (5 : ℚ) ^ 8
        = ((optimal_distance (sample_externals : Externals ℚ) 0 0 / 5) ^ 4 - 1) ^ 2 - 1 :=
  have h := vdw_4_8_well_depth (sample_externals : Externals ℚ)
    (by simp only [sample_externals]; norm_num) ⟨0, 100, 8⟩ 0 0 5
  ⟨h.1, h.2.1, (h.2.2 5 (by norm_num)).1⟩

end Theorems

section ProgressTheorems

open simple_progress_display

theorem tics_needed_eq (c N : Nat) :
    ⌊((c : ℚ) / (N : ℚ)) * PROGRESS_BAR_WIDTH_DOUBLE⌋₊ = 50 * c / N := by
  have h : ((c : ℚ) / (N : ℚ)) * PROGRESS_BAR_WIDTH_DOUBLE = ((50 * c : ℕ) : ℚ) / (N : ℚ) := by
    simp only [PROGRESS_BAR_WIDTH_DOUBLE]
    push_cast
    ring_nf
  rw [h, Nat.floor_div_eq_div]

theorem next_tic_count_eq (t N : Nat) :
    ⌊((t : ℚ) / PROGRESS_BAR_WIDTH_DOUBLE) * (N : ℚ)⌋₊ = t * N / 50 := by
  have h : ((t : ℚ) / PROGRESS_BAR_WIDTH_DOUBLE) * (N : ℚ) = ((t * N : ℕ) : ℚ) / ((50 : ℕ) : ℚ) := by
    simp only [PROGRESS_BAR_WIDTH_DOUBLE]
    push_cast
    ring_nf
  rw [h, Nat.floor_div_eq_div]

theorem next_tic_count_le (c N : Nat) : 50 * c / N * N / 50 ≤ c :=
  calc 50 * c / N * N / 50 ≤ 50 * c / 50 := Nat.div_le_div_right (Nat.div_mul_le_self _ _)
    _ = c := by omega

theorem display_tic_loop_spec (tics_needed : Nat) :
    ∀ (fuel : Nat) (s : simple_progress_display), s._tic + fuel = tics_needed →
      (display_tic_loop tics_needed fuel s)._tic = tics_needed ∧
      (display_tic_loop tics_needed fuel s)._count = s._count ∧
      (display_tic_loop tics_needed fuel s)._expected_count = s._expected_count ∧
      (display_tic_loop tics_needed fuel s).out = s.out ++ List.replicate fuel '*' ∧
      (fuel = 0 → (display_tic_loop tics_needed fuel s)._next_tic_count = s._next_tic_count) ∧
      (0 < fuel → (display_tic_loop tics_needed fuel s)._next_tic_count
          = tics_needed * s._expected_count / 50) := by
  intro fuel
  induction fuel with
  | zero =>
    intro s h
    refine ⟨by simpa [display_tic_loop] using h, rfl, rfl, by simp [display_tic_loop],
      fun _ => rfl, fun h0 => absurd h0 (Nat.lt_irrefl 0)⟩
  | succ k ih =>
    intro s h
    have hlt : s._tic < tics_needed := by omega
    rw [display_tic_loop, if_pos hlt]
    obtain ⟨h1, h2, h3, h4, h5, h6⟩ := ih
      { s with
        out := s.out ++ ['*']
        _tic := s._tic + 1
        _next_tic_count :=
          ⌊(((s._tic + 1 : Nat) : ℚ) / PROGRESS_BAR_WIDTH_DOUBLE) * (s._expected_count : ℚ)⌋₊ }
      (by simp only; omega)
    refine ⟨h1, h2, h3, ?_, fun h0 => absurd h0 (Nat.succ_ne_zero k), fun _ => ?_⟩
    · rw [h4]
      simp only [List.append_assoc, List.singleton_append, List.replicate_succ]
    · rcases Nat.eq_zero_or_pos k with hk | hk
      · rw [h5 hk, next_tic_count_eq]
        have ht : s._tic + 1 = tics_needed := by omega
        rw [ht]
      · exact h6 hk

theorem display_tic_spec (s : simple_progress_display)
    (h : s._tic ≤ 50 * s._count / s._expected_count) :
    s.display_tic._tic = 50 * s._count / s._expected_count ∧
      s.display_tic._count = s._count ∧
      s.display_tic._expected_count = s._expected_count ∧
      s.display_tic.out
        = s.out ++ List.replicate (50 * s._count / s._expected_count - s._tic) '*' ∧
      (s.display_tic._next_tic_count = s._next_tic_count ∨
        s.display_tic._next_tic_count
          = 50 * s._count / s._expected_count * s._expected_count / 50) := by
  unfold display_tic
  simp only [tics_needed_eq]
  obtain ⟨h1, h2, h3, h4, h5, h6⟩ := display_tic_loop_spec (50 * s._count / s._expected_count)
    (50 * s._count / s._expected_count - s._tic) s (by omega)
  refine ⟨h1, h2, h3, h4, ?_⟩
  rcases Nat.eq_zero_or_pos (50 * s._count / s._expected_count - s._tic) with hk | hk
  · exact Or.inl (h5 hk)
  · exact Or.inr (h6 hk)

theorem ruler_has_no_star : ruler.count '*' = 0 := by
  decide

theorem bar_state_stars {N c t : Nat} {s : simple_progress_display} (h : bar_state N c t s) :
    s.stars = t := by
  obtain ⟨-, -, -, -, ho⟩ := h
  rw [stars, ho, List.count_append, ruler_has_no_star, List.count_replicate_self, Nat.zero_add]

theorem tics_mono (N c : Nat) : 50 * c / N ≤ 50 * (c + 1) / N :=
  Nat.div_le_div_right (by omega)

theorem display_tic_bar_state {N c t : Nat} {s : simple_progress_display}
    (h : bar_state N c t s) (ht : t ≤ 50 * c / N) :
    bar_state N c (50 * c / N) s.display_tic := by
  obtain ⟨hc, hN, htic, hnext, ho⟩ := h
  obtain ⟨h1, h2, h3, h4, h5⟩ := display_tic_spec s (by rw [hc, hN, htic]; exact ht)
  rw [hc, hN] at h1 h4 h5
  refine ⟨h2.trans hc, h3.trans hN, h1, ?_, ?_⟩
  · rcases h5 with h5 | h5
    · rw [h5]
      exact hnext
    · rw [h5]
      exact next_tic_count_le c N
  · rw [h4, ho, htic, List.append_assoc, List.append_replicate_replicate]
    congr 2
    omega

theorem increment_bar_state {N c t : Nat} {s : simple_progress_display} (hN : 0 < N)
    (h : bar_state N c t s) (ht : t ≤ 50 * c / N) :
    bar_state N (c + 1) (50 * (c + 1) / N) s.increment := by
  obtain ⟨hc, hE, htic, hnext, ho⟩ := h
  have h1 : bar_state N (c + 1) t { s with _count := s._count + 1 } :=
    ⟨by simp only [hc], hE, htic, Nat.le_succ_of_le hnext, ho⟩
  unfold increment
  rw [if_neg (by rw [hE]; exact Nat.pos_iff_ne_zero.mp hN)]
  simp only
  rw [if_pos (by simp only [hc]; exact Nat.le_succ_of_le hnext)]
  exact display_tic_bar_state h1 (le_trans ht (tics_mono N c))

theorem init_bar_state {N : Nat} (hN : 0 < N) : bar_state N 0 0 (init N) :=
  ⟨rfl, rfl, rfl, Nat.le_refl 0, by simp [init, hN]⟩

theorem increments_bar_state {N : Nat} (hN : 0 < N) (k : Nat) :
    bar_state N k (50 * k / N) (increment^[k] (init N)) := by
  induction k with
  | zero => simpa using init_bar_state hN
  | succ k ih =>
    rw [Function.iterate_succ_apply']
    exact increment_bar_state hN ih (Nat.le_refl _)

theorem destructor_loop_bar_state {N : Nat} :
    ∀ (fuel c t : Nat) (s : simple_progress_display), c + (fuel + 1) = N →
      bar_state N c t s → t ≤ 50 * c / N →
      bar_state N N (50 * (N - 1) / N) (destructor_loop (fuel + 1) s) := by
  intro fuel
  induction fuel with
  | zero =>
    intro c t s hcN h ht
    obtain ⟨hc, hE, htic, hnext, ho⟩ := h
    have hd := display_tic_bar_state (⟨hc, hE, htic, hnext, ho⟩ : bar_state N c t s) ht
    obtain ⟨dc, dE, dtic, dnext, dout⟩ := hd
    have hcN' : c = N - 1 := by omega
    rw [destructor_loop, if_pos (by rw [hc, hE]; omega), if_pos (by rw [hc]; exact hnext)]
    simp only [destructor_loop]
    refine ⟨by simp only [dc]; omega, dE, by rw [dtic, hcN'], by simp only; omega, ?_⟩
    simp only [dout, hcN']
  | succ f ih =>
    intro c t s hcN h ht
    obtain ⟨hc, hE, htic, hnext, ho⟩ := h
    have hd := display_tic_bar_state (⟨hc, hE, htic, hnext, ho⟩ : bar_state N c t s) ht
    obtain ⟨dc, dE, dtic, dnext, dout⟩ := hd
    rw [destructor_loop, if_pos (by rw [hc, hE]; omega), if_pos (by rw [hc]; exact hnext)]
    exact ih (c + 1) (50 * c / N) _ (by omega)
      ⟨by simp only [dc], dE, dtic, Nat.le_succ_of_le dnext, dout⟩ (tics_mono N c)

/-- C18: for every expected count `N > 0`, a `simple_progress_display`
constructed with `N` and incremented exactly `N` times has written the ruler
followed by exactly 50 `'*'`, one for each value of `_tic` from 1 to 50; the
destructor then adds only the newline. -/
theorem progress_bar_full_after_all_increments (N : Nat) (hN : 0 < N) :
    (increment^[N] (init N)).stars = 50 ∧
      (increment^[N] (init N))._tic = 50 ∧
      (increment^[N] (init N)).out = ruler ++ List.replicate 50 '*' ∧
      (increment^[N] (init N)).destructor.out = ruler ++ List.replicate 50 '*' ++ ['\n'] ∧
      (increment^[N] (init N)).destructor.stars = 50 := by
  have h := increments_bar_state hN N
  have h50 : 50 * N / N = 50 := Nat.mul_div_cancel 50 hN
  rw [h50] at h
  have hs := bar_state_stars h
  obtain ⟨hc, hE, htic, -, ho⟩ := h
  have hd : (increment^[N] (init N)).destructor.out
      = ruler ++ List.replicate 50 '*' ++ ['\n'] := by
    have hcond : ¬ ((increment^[N] (init N))._expected_count > 0 ∧
        (increment^[N] (init N))._count < (increment^[N] (init N))._expected_count) := by
      rw [hc, hE]
      omega
    unfold destructor
    simp only [if_neg hcond]
    simp only [hE, gt_iff_lt, hN, if_true, ho]
  refine ⟨hs, htic, ho, hd, ?_⟩
  rw [stars, hd, List.count_append, List.count_append, ruler_has_no_star,
    List.count_replicate_self]
  decide

theorem progress_bar_full_after_all_increments_witness :
    (increment^[10] (init 10)).stars = 50 ∧
      (increment^[10] (init 10)).destructor.stars = 50 :=
  ⟨(progress_bar_full_after_all_increments 10 (by decide)).1,
    (progress_bar_full_after_all_increments 10 (by decide)).2.2.2.2⟩

/-- C19, what the code does instead: for every expected count `N > 0` and
every `k < N`, after `k` increments and the destructor the output is the ruler,
`50*(N-1)/N` stars (rounded down) and the newline, which is fewer than 50
stars: the loop of the destructor calls `display_tic` before it advances
`_count`, so the last call sees `_count = N - 1`. -/
theorem progress_destructor_stops_short (N k : Nat) (hN : 0 < N) (hk : k < N) :
    (increment^[k] (init N)).destructor.out
        = ruler ++ List.replicate (50 * (N - 1) / N) '*' ++ ['\n'] ∧
      (increment^[k] (init N)).destructor.stars = 50 * (N - 1) / N ∧
      50 * (N - 1) / N < 50 := by
  have h := increments_bar_state hN k
  have hl := destructor_loop_bar_state (N - k - 1) k (50 * k / N) _ (by omega) h (Nat.le_refl _)
  have hfuel : N - k - 1 + 1 = N - k := by omega
  rw [hfuel] at hl
  obtain ⟨hc, hE, -, -, -⟩ := h
  obtain ⟨lc, lE, ltic, -, lo⟩ := hl
  have hd : (increment^[k] (init N)).destructor.out
      = ruler ++ List.replicate (50 * (N - 1) / N) '*' ++ ['\n'] := by
    have hcond : (increment^[k] (init N))._expected_count > 0 ∧
        (increment^[k] (init N))._count < (increment^[k] (init N))._expected_count := by
      rw [hc, hE]
      exact ⟨hN, hk⟩
    unfold destructor
    simp only [if_pos hcond]
    simp only [hc, hE, lE, gt_iff_lt, hN, if_true, lo]
  refine ⟨hd, ?_, ?_⟩
  · rw [stars, hd, List.count_append, List.count_append, ruler_has_no_star,
      List.count_replicate_self]
    simp
  · rw [Nat.div_lt_iff_lt_mul hN]
    have : 50 * (N - 1) < 50 * N := Nat.mul_lt_mul_of_pos_left (by omega) (by decide)
    omega

theorem progress_destructor_stops_short_witness :
    (increment^[7] (init 10)).destructor.stars = 45 :=
  (progress_destructor_stops_short 10 7 (by decide) (by decide)).2.1

theorem increment_calls_display_tic (s : simple_progress_display)
    (hE : s._expected_count ≠ 0) (h : s._next_tic_count ≤ s._count) :
    s.increment = display_tic { s with _count := s._count + 1 } := by
  unfold increment
  rw [if_neg hE]
  simp only
  rw [if_pos (Nat.le_succ_of_le h)]

theorem round_half_even_abs_sub_le (y : ℚ) : |(round_half_even y : ℚ) - y| ≤ 1 / 2 := by
  have h1 := Int.floor_le y
  have h2 := Int.lt_floor_add_one y
  unfold round_half_even
  split_ifs with ha hb hc
  · rw [abs_le]; constructor <;> linarith
  · rw [abs_le]; push_cast; constructor <;> linarith
  · rw [abs_le]; constructor <;> linarith
  · rw [abs_le]; push_cast; constructor <;> linarith

theorem round_half_even_intCast (n : ℤ) : round_half_even (n : ℚ) = n := by
  unfold round_half_even
  rw [Int.floor_intCast]
  simp

theorem round_half_even_mono {y z : ℚ} (h : y ≤ z) : round_half_even y ≤ round_half_even z := by
  rcases eq_or_lt_of_le h with h | h
  · rw [h]
  · by_contra hlt
    have hlt : round_half_even z + 1 ≤ round_half_even y := by omega
    have hq : ((round_half_even z : ℤ) : ℚ) + 1 ≤ (round_half_even y : ℚ) := by exact_mod_cast hlt
    have hy := abs_le.mp (round_half_even_abs_sub_le y)
    have hz := abs_le.mp (round_half_even_abs_sub_le z)
    linarith [hy.1, hy.2, hz.1, hz.2]

theorem round_half_even_eq_of_abs_lt {y : ℚ} {m : ℤ} (h : |y - (m : ℚ)| < 1 / 2) :
    round_half_even y = m := by
  have hy := abs_le.mp (round_half_even_abs_sub_le y)
  have hm := abs_lt.mp h
  have h1 : (round_half_even y : ℚ) < (m : ℚ) + 1 := by linarith [hy.1, hy.2, hm.1, hm.2]
  have h2 : (m : ℚ) - 1 < (round_half_even y : ℚ) := by linarith [hy.1, hy.2, hm.1, hm.2]
  have h1' : round_half_even y < m + 1 := by exact_mod_cast h1
  have h2' : m - 1 < round_half_even y := by exact_mod_cast h2
  omega

theorem binary64_round_zero : binary64_round 0 = 0 := by
  simp [binary64_round]

theorem binary64_round_of_pos {x : ℚ} (hx : 0 < x) :
    binary64_round x
      = (round_half_even (x / 2 ^ (Int.log 2 x - 52)) : ℚ) * 2 ^ (Int.log 2 x - 52) := by
  unfold binary64_round
  rw [if_neg hx.ne', abs_of_pos hx]

theorem two_zpow_log_le {x : ℚ} (hx : 0 < x) : (2 : ℚ) ^ Int.log 2 x ≤ x := by
  have h := Int.zpow_log_le_self (b := 2) (by norm_num) hx
  simpa using h

theorem lt_two_zpow_log_succ (x : ℚ) : x < (2 : ℚ) ^ (Int.log 2 x + 1) := by
  have h := Int.lt_zpow_succ_log_self (b := 2) (by norm_num) x
  simpa using h

theorem significand_bounds {x : ℚ} (hx : 0 < x) :
    (2 : ℚ) ^ (52 : ℕ) ≤ x / 2 ^ (Int.log 2 x - 52) ∧
      x / 2 ^ (Int.log 2 x - 52) < (2 : ℚ) ^ (53 : ℕ) := by
  have hu : (0 : ℚ) < 2 ^ (Int.log 2 x - 52) := zpow_pos (by norm_num) _
  have h1 := two_zpow_log_le hx
  have h2 := lt_two_zpow_log_succ x
  have e1 : (2 : ℚ) ^ (52 : ℕ) * 2 ^ (Int.log 2 x - 52) = 2 ^ Int.log 2 x := by
    rw [← zpow_natCast, ← zpow_add₀ (by norm_num : (2 : ℚ) ≠ 0)]
    congr 1
    push_cast
    ring
  have e2 : (2 : ℚ) ^ (53 : ℕ) * 2 ^ (Int.log 2 x - 52) = 2 ^ (Int.log 2 x + 1) := by
    rw [← zpow_natCast, ← zpow_add₀ (by norm_num : (2 : ℚ) ≠ 0)]
    congr 1
    push_cast
    ring
  constructor
  · rw [le_div_iff₀ hu, e1]
    exact h1
  · rw [div_lt_iff₀ hu, e2]
    exact h2

theorem binary64_round_bounds {x : ℚ} (hx : 0 < x) :
    (2 : ℚ) ^ Int.log 2 x ≤ binary64_round x ∧
      binary64_round x ≤ (2 : ℚ) ^ (Int.log 2 x + 1) := by
  have hu : (0 : ℚ) < 2 ^ (Int.log 2 x - 52) := zpow_pos (by norm_num) _
  obtain ⟨h1, h2⟩ := significand_bounds hx
  have e1 : (2 : ℚ) ^ (52 : ℕ) * 2 ^ (Int.log 2 x - 52) = 2 ^ Int.log 2 x := by
    rw [← zpow_natCast, ← zpow_add₀ (by norm_num : (2 : ℚ) ≠ 0)]
    congr 1
    push_cast
    ring
  have e2 : (2 : ℚ) ^ (53 : ℕ) * 2 ^ (Int.log 2 x - 52) = 2 ^ (Int.log 2 x + 1) := by
    rw [← zpow_natCast, ← zpow_add₀ (by norm_num : (2 : ℚ) ≠ 0)]
    congr 1
    push_cast
    ring
  have r1 : ((2 ^ (52 : ℕ) : ℤ) : ℚ) ≤ round_half_even (x / 2 ^ (Int.log 2 x - 52)) := by
    have := round_half_even_mono (y := ((2 ^ (52 : ℕ) : ℤ) : ℚ)) (by push_cast; exact h1)
    rw [round_half_even_intCast] at this
    exact_mod_cast this
  have r2 : (round_half_even (x / 2 ^ (Int.log 2 x - 52)) : ℚ) ≤ ((2 ^ (53 : ℕ) : ℤ) : ℚ) := by
    have := round_half_even_mono (z := ((2 ^ (53 : ℕ) : ℤ) : ℚ)) (by push_cast; exact h2.le)
    rw [round_half_even_intCast] at this
    exact_mod_cast this
  rw [binary64_round_of_pos hx]
  constructor
  · rw [← e1]
    exact mul_le_mul_of_nonneg_right (by push_cast at r1; exact r1) hu.le
  · rw [← e2]
    exact mul_le_mul_of_nonneg_right (by push_cast at r2; exact r2) hu.le

theorem binary64_round_nonneg {x : ℚ} (hx : 0 ≤ x) : 0 ≤ binary64_round x := by
  rcases eq_or_lt_of_le hx with h | h
  · rw [← h, binary64_round_zero]
  · exact le_trans (zpow_pos (by norm_num) _).le (binary64_round_bounds h).1

theorem binary64_round_mono {x y : ℚ} (hx : 0 ≤ x) (h : x ≤ y) :
    binary64_round x ≤ binary64_round y := by
  rcases eq_or_lt_of_le hx with h0 | h0
  · rw [← h0, binary64_round_zero]
    exact binary64_round_nonneg (le_trans hx h)
  · have hy : 0 < y := lt_of_lt_of_le h0 h
    have hlog : Int.log 2 x ≤ Int.log 2 y := Int.log_mono_right h0 h
    rcases eq_or_lt_of_le hlog with he | he
    · rw [binary64_round_of_pos h0, binary64_round_of_pos hy, he]
      have hu : (0 : ℚ) < 2 ^ (Int.log 2 y - 52) := zpow_pos (by norm_num) _
      apply mul_le_mul_of_nonneg_right _ hu.le
      have := round_half_even_mono (div_le_div_of_nonneg_right h hu.le)
      exact_mod_cast this
    · calc binary64_round x ≤ (2 : ℚ) ^ (Int.log 2 x + 1) := (binary64_round_bounds h0).2
        _ ≤ (2 : ℚ) ^ Int.log 2 y := zpow_le_zpow_right₀ (by norm_num) (by omega)
        _ ≤ binary64_round y := (binary64_round_bounds hy).1

theorem binary64_round_abs_sub_le {x : ℚ} (hx : 0 ≤ x) :
    |binary64_round x - x| ≤ x / 2 ^ (53 : ℕ) := by
  rcases eq_or_lt_of_le hx with h0 | h0
  · rw [← h0, binary64_round_zero]
    simp
  · have hu : (0 : ℚ) < 2 ^ (Int.log 2 x - 52) := zpow_pos (by norm_num) _
    have hr := round_half_even_abs_sub_le (x / 2 ^ (Int.log 2 x - 52))
    have e : binary64_round x - x
        = ((round_half_even (x / 2 ^ (Int.log 2 x - 52)) : ℚ) - x / 2 ^ (Int.log 2 x - 52))
          * 2 ^ (Int.log 2 x - 52) := by
      rw [binary64_round_of_pos h0]
      field_simp
    rw [e, abs_mul, abs_of_pos hu]
    have h1 := (significand_bounds h0).1
    have hx' : x = x / 2 ^ (Int.log 2 x - 52) * 2 ^ (Int.log 2 x - 52) := by
      field_simp
    calc |(round_half_even (x / 2 ^ (Int.log 2 x - 52)) : ℚ) - x / 2 ^ (Int.log 2 x - 52)|
            * 2 ^ (Int.log 2 x - 52)
          ≤ 1 / 2 * 2 ^ (Int.log 2 x - 52) := mul_le_mul_of_nonneg_right hr hu.le
      _ ≤ (x / 2 ^ (Int.log 2 x - 52) / 2 ^ (53 : ℕ)) * 2 ^ (Int.log 2 x - 52) := by
          apply mul_le_mul_of_nonneg_right _ hu.le
          rw [le_div_iff₀ (by positivity)]
          calc (1 : ℚ) / 2 * 2 ^ (53 : ℕ) = 2 ^ (52 : ℕ) := by norm_num
            _ ≤ _ := h1
      _ = x / 2 ^ (53 : ℕ) := by
          rw [div_mul_eq_mul_div, ← hx']

theorem int_log_two_eq {x : ℚ} {e : ℤ} (hlo : (2 : ℚ) ^ e ≤ x) (hhi : x < (2 : ℚ) ^ (e + 1)) :
    Int.log 2 x = e := by
  have hx : 0 < x := lt_of_lt_of_le (zpow_pos (by norm_num) _) hlo
  have h1 : e ≤ Int.log 2 x := by
    rw [← Int.zpow_le_iff_le_log (by norm_num) hx]
    simpa using hlo
  have h2 : Int.log 2 x < e + 1 := by
    rw [← Int.lt_zpow_iff_log_lt (by norm_num) hx]
    simpa using hhi
  omega

theorem binary64_round_eq_of {x : ℚ} {e m : ℤ} (hlo : (2 : ℚ) ^ e ≤ x)
    (hhi : x < (2 : ℚ) ^ (e + 1)) (hm : |x / 2 ^ (e - 52) - (m : ℚ)| < 1 / 2) :
    binary64_round x = (m : ℚ) * 2 ^ (e - 52) := by
  have hx : 0 < x := lt_of_lt_of_le (zpow_pos (by norm_num) _) hlo
  rw [binary64_round_of_pos hx, int_log_two_eq hlo hhi, round_half_even_eq_of_abs_lt hm]

theorem binary64_round_natCast {n : ℕ} (hn : n < 2 ^ 53) : binary64_round (n : ℚ) = n := by
  rcases Nat.eq_zero_or_pos n with h0 | h0
  · rw [h0, Nat.cast_zero, binary64_round_zero]
  · have hx : (0 : ℚ) < n := by exact_mod_cast h0
    have hu : (0 : ℚ) < 2 ^ (Int.log 2 (n : ℚ) - 52) := zpow_pos (by norm_num) _
    have hlt : (2 : ℚ) ^ Int.log 2 (n : ℚ) < (2 : ℚ) ^ (53 : ℤ) := by
      calc (2 : ℚ) ^ Int.log 2 (n : ℚ) ≤ n := two_zpow_log_le hx
        _ < (2 : ℚ) ^ (53 : ℤ) := by
          rw [zpow_ofNat]
          exact_mod_cast hn
    have he : Int.log 2 (n : ℚ) < 53 := (zpow_lt_zpow_iff_right₀ (by norm_num)).mp hlt
    obtain ⟨k, hk⟩ : ∃ k : ℕ, (k : ℤ) = 52 - Int.log 2 (n : ℚ) :=
      ⟨(52 - Int.log 2 (n : ℚ)).toNat, Int.toNat_of_nonneg (by omega)⟩
    have hsig : (n : ℚ) / 2 ^ (Int.log 2 (n : ℚ) - 52) = (((n * 2 ^ k : ℕ) : ℤ) : ℚ) := by
      rw [div_eq_iff hu.ne']
      push_cast
      rw [mul_assoc, ← zpow_natCast, ← zpow_add₀ (by norm_num : (2 : ℚ) ≠ 0), hk]
      simp
    rw [binary64_round_of_pos hx, hsig, round_half_even_intCast, ← hsig]
    field_simp

theorem binary64_round_le_mul {x : ℚ} (hx : 0 ≤ x) :
    binary64_round x ≤ x * (1 + 1 / 2 ^ (53 : ℕ)) := by
  have h := (abs_le.mp (binary64_round_abs_sub_le hx)).2
  have e : x * (1 + 1 / 2 ^ (53 : ℕ)) = x + x / 2 ^ (53 : ℕ) := by ring
  rw [e]
  linarith

theorem mul_le_binary64_round {x : ℚ} (hx : 0 ≤ x) :
    x * (1 - 1 / 2 ^ (53 : ℕ)) ≤ binary64_round x := by
  have h := (abs_le.mp (binary64_round_abs_sub_le hx)).1
  have e : x * (1 - 1 / 2 ^ (53 : ℕ)) = x - x / 2 ^ (53 : ℕ) := by ring
  rw [e]
  linarith

theorem tics_needed_binary64_eq {c N : Nat} (hc : c < 2 ^ 53) (hN : N < 2 ^ 53) :
    tics_needed_binary64 c N
      = ⌊binary64_round (binary64_round ((c : ℚ) / (N : ℚ)) * 50)⌋₊ := by
  have h50 : PROGRESS_BAR_WIDTH_DOUBLE = 50 := by
    simp only [PROGRESS_BAR_WIDTH_DOUBLE]
    norm_num
  simp only [tics_needed_binary64, binary64_round_natCast hc, binary64_round_natCast hN, h50]

theorem next_tic_count_binary64_eq {t N : Nat} (ht : t < 2 ^ 53) (hN : N < 2 ^ 53) :
    next_tic_count_binary64 t N
      = ⌊binary64_round (binary64_round ((t : ℚ) / 50) * (N : ℚ))⌋₊ := by
  have h50 : PROGRESS_BAR_WIDTH_DOUBLE = 50 := by
    simp only [PROGRESS_BAR_WIDTH_DOUBLE]
    norm_num
  simp only [next_tic_count_binary64, binary64_round_natCast ht, binary64_round_natCast hN, h50]

theorem two_roundings_upper {x : ℚ} (hx : 0 ≤ x) :
    binary64_round (binary64_round x * 50) ≤ x * 50 * ((1 + 1 / 2 ^ (53 : ℕ)) * (1 + 1 / 2 ^ (53 : ℕ))) := by
  have ha := binary64_round_le_mul hx
  have ha0 := binary64_round_nonneg hx
  have hb := binary64_round_le_mul (mul_nonneg ha0 (by norm_num : (0 : ℚ) ≤ 50))
  have hd : (0 : ℚ) ≤ 1 + 1 / 2 ^ (53 : ℕ) := by norm_num
  calc binary64_round (binary64_round x * 50)
      ≤ binary64_round x * 50 * (1 + 1 / 2 ^ (53 : ℕ)) := hb
    _ ≤ x * (1 + 1 / 2 ^ (53 : ℕ)) * 50 * (1 + 1 / 2 ^ (53 : ℕ)) :=
        mul_le_mul_of_nonneg_right (mul_le_mul_of_nonneg_right ha (by norm_num)) hd
    _ = x * 50 * ((1 + 1 / 2 ^ (53 : ℕ)) * (1 + 1 / 2 ^ (53 : ℕ))) := by ring

theorem two_roundings_lower {x : ℚ} (hx : 0 ≤ x) :
    x * 50 * ((1 - 1 / 2 ^ (53 : ℕ)) * (1 - 1 / 2 ^ (53 : ℕ)))
      ≤ binary64_round (binary64_round x * 50) := by
  have ha := mul_le_binary64_round hx
  have ha0 := binary64_round_nonneg hx
  have hb := mul_le_binary64_round (mul_nonneg ha0 (by norm_num : (0 : ℚ) ≤ 50))
  have hd : (0 : ℚ) ≤ 1 - 1 / 2 ^ (53 : ℕ) := by norm_num
  calc x * 50 * ((1 - 1 / 2 ^ (53 : ℕ)) * (1 - 1 / 2 ^ (53 : ℕ)))
      = x * (1 - 1 / 2 ^ (53 : ℕ)) * 50 * (1 - 1 / 2 ^ (53 : ℕ)) := by ring
    _ ≤ binary64_round x * 50 * (1 - 1 / 2 ^ (53 : ℕ)) :=
        mul_le_mul_of_nonneg_right (mul_le_mul_of_nonneg_right ha (by norm_num)) hd
    _ ≤ binary64_round (binary64_round x * 50) := hb

theorem scaled_count_upper {c : ℚ} (hc : c ≤ 2 ^ (45 : ℕ)) :
    50 * c * ((1 + 1 / 2 ^ (53 : ℕ)) * (1 + 1 / 2 ^ (53 : ℕ))) < 50 * c + 1 := by
  norm_num at hc ⊢
  linarith

theorem scaled_count_lower {c : ℚ} (hc : c ≤ 2 ^ (45 : ℕ)) :
    50 * c - 1 < 50 * c * ((1 - 1 / 2 ^ (53 : ℕ)) * (1 - 1 / 2 ^ (53 : ℕ))) := by
  norm_num at hc ⊢
  linarith

theorem tics_needed_binary64_le {c N : Nat} (hN : 0 < N) (hN53 : N < 2 ^ 53)
    (hc : c ≤ 2 ^ 45) : tics_needed_binary64 c N ≤ 50 * c / N := by
  have hcq : (c : ℚ) ≤ 2 ^ (45 : ℕ) := by exact_mod_cast hc
  have hNq : (0 : ℚ) < N := by exact_mod_cast hN
  have hx : (0 : ℚ) ≤ (c : ℚ) / N := by positivity
  rw [tics_needed_binary64_eq (lt_of_le_of_lt hc (by norm_num)) hN53]
  apply Nat.lt_succ_iff.mp
  rw [Nat.floor_lt (binary64_round_nonneg (mul_nonneg (binary64_round_nonneg hx) (by norm_num)))]
  have hq : 50 * c < (50 * c / N + 1) * N := by
    rw [← Nat.div_lt_iff_lt_mul hN]
    exact Nat.lt_succ_self _
  have hq' : (50 : ℚ) * c + 1 ≤ ((50 * c / N + 1 : ℕ) : ℚ) * N := by exact_mod_cast hq
  calc binary64_round (binary64_round ((c : ℚ) / N) * 50)
      ≤ (c : ℚ) / N * 50 * ((1 + 1 / 2 ^ (53 : ℕ)) * (1 + 1 / 2 ^ (53 : ℕ))) :=
        two_roundings_upper hx
    _ = 50 * c * ((1 + 1 / 2 ^ (53 : ℕ)) * (1 + 1 / 2 ^ (53 : ℕ))) / N := by ring
    _ < (50 * c + 1) / N := div_lt_div_of_pos_right (scaled_count_upper hcq) hNq
    _ ≤ ((50 * c / N + 1 : ℕ) : ℚ) * N / N := div_le_div_of_nonneg_right hq' hNq.le
    _ = ((50 * c / N + 1 : ℕ) : ℚ) := by field_simp

theorem lt_two_roundings {c N : Nat} (hN : 0 < N) (hc : c ≤ 2 ^ 45) :
    ((50 : ℚ) * c - 1) / N < binary64_round (binary64_round ((c : ℚ) / N) * 50) := by
  have hcq : (c : ℚ) ≤ 2 ^ (45 : ℕ) := by exact_mod_cast hc
  have hNq : (0 : ℚ) < N := by exact_mod_cast hN
  have hx : (0 : ℚ) ≤ (c : ℚ) / N := by positivity
  calc ((50 : ℚ) * c - 1) / N
      < 50 * c * ((1 - 1 / 2 ^ (53 : ℕ)) * (1 - 1 / 2 ^ (53 : ℕ))) / N :=
        div_lt_div_of_pos_right (scaled_count_lower hcq) hNq
    _ = (c : ℚ) / N * 50 * ((1 - 1 / 2 ^ (53 : ℕ)) * (1 - 1 / 2 ^ (53 : ℕ))) := by ring
    _ ≤ binary64_round (binary64_round ((c : ℚ) / N) * 50) := two_roundings_lower hx

theorem le_tics_needed_binary64_succ {c N : Nat} (hN : 0 < N) (hN53 : N < 2 ^ 53)
    (hc : c ≤ 2 ^ 45) : 50 * c / N ≤ tics_needed_binary64 c N + 1 := by
  have hNq : (0 : ℚ) < N := by exact_mod_cast hN
  have hN1 : (1 : ℚ) ≤ N := by exact_mod_cast hN
  rw [tics_needed_binary64_eq (lt_of_le_of_lt hc (by norm_num)) hN53]
  rcases Nat.eq_zero_or_pos (50 * c / N) with h0 | h0
  · rw [h0]
    exact Nat.zero_le _
  · have hle : 50 * c / N - 1 ≤ ⌊binary64_round (binary64_round ((c : ℚ) / N) * 50)⌋₊ := by
      apply Nat.le_floor
      have hq : 50 * c / N * N ≤ 50 * c := Nat.div_mul_le_self _ _
      have hq' : ((50 * c / N : ℕ) : ℚ) * N ≤ 50 * c := by exact_mod_cast hq
      have hcast : ((50 * c / N - 1 : ℕ) : ℚ) = ((50 * c / N : ℕ) : ℚ) - 1 := by
        rw [Nat.cast_sub h0]
        simp
      rw [hcast]
      have h1 : ((50 * c / N : ℕ) : ℚ) - 1 ≤ ((50 : ℚ) * c - 1) / N := by
        rw [le_div_iff₀ hNq]
        have : ((50 * c / N : ℕ) : ℚ) * N - N ≤ 50 * c - 1 := by linarith
        linarith
      exact le_trans h1 (lt_two_roundings hN hc).le
    omega

theorem tics_needed_binary64_eq_div {c N : Nat} (hN : 0 < N) (hN53 : N < 2 ^ 53)
    (hc : c ≤ 2 ^ 45) (hdvd : ¬ N ∣ 50 * c) : tics_needed_binary64 c N = 50 * c / N := by
  have hNq : (0 : ℚ) < N := by exact_mod_cast hN
  apply le_antisymm (tics_needed_binary64_le hN hN53 hc)
  rw [tics_needed_binary64_eq (lt_of_le_of_lt hc (by norm_num)) hN53]
  apply Nat.le_floor
  have hq : 50 * c / N * N ≤ 50 * c := Nat.div_mul_le_self _ _
  have hne : 50 * c / N * N ≠ 50 * c := by
    intro h
    exact hdvd (Dvd.intro_left _ h)
  have hq1 : 50 * c / N * N + 1 ≤ 50 * c := by omega
  have hq' : ((50 * c / N : ℕ) : ℚ) * N + 1 ≤ 50 * c := by exact_mod_cast hq1
  have h1 : ((50 * c / N : ℕ) : ℚ) ≤ ((50 : ℚ) * c - 1) / N := by
    rw [le_div_iff₀ hNq]
    linarith
  exact le_trans h1 (lt_two_roundings hN hc).le

theorem tics_needed_binary64_mono {c d N : Nat} (hd : d < 2 ^ 53) (hN : N < 2 ^ 53)
    (h : c ≤ d) : tics_needed_binary64 c N ≤ tics_needed_binary64 d N := by
  have hcq : (c : ℚ) ≤ d := by exact_mod_cast h
  rw [tics_needed_binary64_eq (lt_of_le_of_lt h hd) hN, tics_needed_binary64_eq hd hN]
  apply Nat.floor_mono
  apply binary64_round_mono (mul_nonneg (binary64_round_nonneg (by positivity)) (by norm_num))
  apply mul_le_mul_of_nonneg_right _ (by norm_num)
  exact binary64_round_mono (by positivity)
    (div_le_div_of_nonneg_right hcq (Nat.cast_nonneg N))

theorem next_tic_count_binary64_le {t c N : Nat} (hN : 0 < N) (hN53 : N < 2 ^ 53)
    (hc : c ≤ 2 ^ 45) (ht : t ≤ 50 * c / N) : next_tic_count_binary64 t N ≤ c := by
  have hcq : (c : ℚ) ≤ 2 ^ (45 : ℕ) := by exact_mod_cast hc
  have hNq : (0 : ℚ) < N := by exact_mod_cast hN
  have htN : t * N ≤ 50 * c := (Nat.le_div_iff_mul_le hN).mp ht
  have htNq : (t : ℚ) * N ≤ 50 * c := by exact_mod_cast htN
  have ht53 : t < 2 ^ 53 := by
    have h1 : t ≤ 50 * c := le_trans ht (Nat.div_le_self _ _)
    have h2 : 50 * c ≤ 50 * 2 ^ 45 := Nat.mul_le_mul_left 50 hc
    exact lt_of_le_of_lt (le_trans h1 h2) (by norm_num)
  have hx : (0 : ℚ) ≤ (t : ℚ) / 50 := by positivity
  have ha := binary64_round_le_mul hx
  have ha0 := binary64_round_nonneg hx
  have hb := binary64_round_le_mul (mul_nonneg ha0 hNq.le)
  have hd : (0 : ℚ) ≤ 1 + 1 / 2 ^ (53 : ℕ) := by norm_num
  rw [next_tic_count_binary64_eq ht53 hN53]
  apply Nat.lt_succ_iff.mp
  rw [Nat.floor_lt (binary64_round_nonneg (mul_nonneg ha0 hNq.le))]
  have hup := scaled_count_upper hcq
  calc binary64_round (binary64_round ((t : ℚ) / 50) * N)
      ≤ binary64_round ((t : ℚ) / 50) * N * (1 + 1 / 2 ^ (53 : ℕ)) := hb
    _ ≤ (t : ℚ) / 50 * (1 + 1 / 2 ^ (53 : ℕ)) * N * (1 + 1 / 2 ^ (53 : ℕ)) :=
        mul_le_mul_of_nonneg_right (mul_le_mul_of_nonneg_right ha hNq.le) hd
    _ = (t : ℚ) * N * ((1 + 1 / 2 ^ (53 : ℕ)) * (1 + 1 / 2 ^ (53 : ℕ))) / 50 := by ring
    _ ≤ 50 * c * ((1 + 1 / 2 ^ (53 : ℕ)) * (1 + 1 / 2 ^ (53 : ℕ))) / 50 :=
        div_le_div_of_nonneg_right
          (mul_le_mul_of_nonneg_right htNq (mul_nonneg hd hd)) (by norm_num)
    _ < (50 * c + 1) / 50 := div_lt_div_of_pos_right hup (by norm_num)
    _ ≤ ((c + 1 : ℕ) : ℚ) := by
        push_cast
        linarith

theorem tics_needed_binary64_le_50 {k N : Nat} (hN : 0 < N) (hN53 : N < 2 ^ 53)
    (hk : k ≤ N) : tics_needed_binary64 k N ≤ 50 := by
  have hNq : (0 : ℚ) < N := by exact_mod_cast hN
  have hkq : (k : ℚ) ≤ N := by exact_mod_cast hk
  have h1 : binary64_round (1 : ℚ) = 1 := by
    have := binary64_round_natCast (n := 1) (by norm_num)
    simpa using this
  have h50 : binary64_round (50 : ℚ) = 50 := by
    have := binary64_round_natCast (n := 50) (by norm_num)
    simpa using this
  have hx : (0 : ℚ) ≤ (k : ℚ) / N := by positivity
  have ha : binary64_round ((k : ℚ) / N) ≤ 1 :=
    le_trans (binary64_round_mono hx ((div_le_one hNq).mpr hkq)) h1.le
  have hb : binary64_round (binary64_round ((k : ℚ) / N) * 50) ≤ 50 :=
    le_trans (binary64_round_mono (mul_nonneg (binary64_round_nonneg hx) (by norm_num))
      (by linarith)) h50.le
  rw [tics_needed_binary64_eq (lt_of_le_of_lt hk hN53) hN53]
  apply Nat.lt_succ_iff.mp
  rw [Nat.floor_lt (binary64_round_nonneg (mul_nonneg (binary64_round_nonneg hx) (by norm_num)))]
  push_cast
  linarith

theorem binary64_round_51_div_50 :
    binary64_round (51 / 50) = 4593671619917906 / 2 ^ (52 : ℕ) := by
  rw [binary64_round_eq_of (e := 0) (m := 4593671619917906) (by norm_num) (by norm_num)
    (by norm_num [abs_lt])]
  norm_num

theorem binary64_round_51 :
    binary64_round (4593671619917906 / 2 ^ (52 : ℕ) * 50) = 51 := by
  rw [binary64_round_eq_of (e := 5) (m := 7177611906121728) (by norm_num) (by norm_num)
    (by norm_num [abs_lt])]
  norm_num

theorem le_tics_needed_binary64_51 {k N : Nat} (hN : 0 < N) (hN53 : N < 2 ^ 53)
    (hk53 : k < 2 ^ 53) (hk : 51 * N ≤ 50 * k) : 51 ≤ tics_needed_binary64 k N := by
  have hNq : (0 : ℚ) < N := by exact_mod_cast hN
  have hkq : (51 : ℚ) * N ≤ 50 * k := by exact_mod_cast hk
  have hx : (51 : ℚ) / 50 ≤ (k : ℚ) / N := by
    rw [div_le_div_iff₀ (by norm_num) hNq]
    linarith
  have ha : (4593671619917906 : ℚ) / 2 ^ (52 : ℕ) ≤ binary64_round ((k : ℚ) / N) :=
    le_trans binary64_round_51_div_50.ge (binary64_round_mono (by norm_num) hx)
  have hb : (51 : ℚ) ≤ binary64_round (binary64_round ((k : ℚ) / N) * 50) :=
    le_trans binary64_round_51.ge (binary64_round_mono (by norm_num) (by linarith))
  rw [tics_needed_binary64_eq hk53 hN53]
  apply Nat.le_floor
  exact_mod_cast hb

theorem display_tic_loop_binary64_spec (tics_needed : Nat) :
    ∀ (fuel : Nat) (s : simple_progress_display), s._tic + fuel = tics_needed →
      (display_tic_loop_binary64 tics_needed fuel s)._tic = tics_needed ∧
      (display_tic_loop_binary64 tics_needed fuel s)._count = s._count ∧
      (display_tic_loop_binary64 tics_needed fuel s)._expected_count = s._expected_count ∧
      (display_tic_loop_binary64 tics_needed fuel s).out = s.out ++ List.replicate fuel '*' ∧
      (fuel = 0 →
        (display_tic_loop_binary64 tics_needed fuel s)._next_tic_count = s._next_tic_count) ∧
      (0 < fuel → (display_tic_loop_binary64 tics_needed fuel s)._next_tic_count
          = next_tic_count_binary64 tics_needed s._expected_count) := by
  intro fuel
  induction fuel with
  | zero =>
    intro s h
    refine ⟨by simpa [display_tic_loop_binary64] using h, rfl, rfl,
      by simp [display_tic_loop_binary64], fun _ => rfl, fun h0 => absurd h0 (Nat.lt_irrefl 0)⟩
  | succ k ih =>
    intro s h
    have hlt : s._tic < tics_needed := by omega
    rw [display_tic_loop_binary64, if_pos hlt]
    obtain ⟨h1, h2, h3, h4, h5, h6⟩ := ih
      { s with
        out := s.out ++ ['*']
        _tic := s._tic + 1
        _next_tic_count := next_tic_count_binary64 (s._tic + 1) s._expected_count }
      (by simp only; omega)
    refine ⟨h1, h2, h3, ?_, fun h0 => absurd h0 (Nat.succ_ne_zero k), fun _ => ?_⟩
    · rw [h4]
      simp only [List.append_assoc, List.singleton_append, List.replicate_succ]
    · rcases Nat.eq_zero_or_pos k with hk | hk
      · rw [h5 hk]
        have ht : s._tic + 1 = tics_needed := by omega
        simp only [ht]
      · exact h6 hk

theorem display_tic_binary64_spec (s : simple_progress_display)
    (h : s._tic ≤ tics_needed_binary64 s._count s._expected_count) :
    s.display_tic_binary64._tic = tics_needed_binary64 s._count s._expected_count ∧
      s.display_tic_binary64._count = s._count ∧
      s.display_tic_binary64._expected_count = s._expected_count ∧
      s.display_tic_binary64.out
        = s.out ++ List.replicate
            (tics_needed_binary64 s._count s._expected_count - s._tic) '*' ∧
      (s.display_tic_binary64._next_tic_count = s._next_tic_count ∨
        s.display_tic_binary64._next_tic_count
          = next_tic_count_binary64 (tics_needed_binary64 s._count s._expected_count)
              s._expected_count) := by
  unfold display_tic_binary64
  obtain ⟨h1, h2, h3, h4, h5, h6⟩ := display_tic_loop_binary64_spec
    (tics_needed_binary64 s._count s._expected_count)
    (tics_needed_binary64 s._count s._expected_count - s._tic) s (by omega)
  refine ⟨h1, h2, h3, h4, ?_⟩
  rcases Nat.eq_zero_or_pos (tics_needed_binary64 s._count s._expected_count - s._tic)
    with hk | hk
  · exact Or.inl (h5 hk)
  · exact Or.inr (h6 hk)

theorem display_tic_binary64_bar_state {N c t : Nat} {s : simple_progress_display}
    (hN : 0 < N) (hN53 : N < 2 ^ 53) (hc45 : c ≤ 2 ^ 45)
    (h : bar_state N c t s) (ht : t ≤ tics_needed_binary64 c N) :
    bar_state N c (tics_needed_binary64 c N) s.display_tic_binary64 := by
  obtain ⟨hc, hE, htic, hnext, ho⟩ := h
  obtain ⟨h1, h2, h3, h4, h5⟩ := display_tic_binary64_spec s (by rw [hc, hE, htic]; exact ht)
  rw [hc, hE] at h1 h4 h5
  refine ⟨h2.trans hc, h3.trans hE, h1, ?_, ?_⟩
  · rcases h5 with h5 | h5
    · rw [h5]
      exact hnext
    · rw [h5]
      exact next_tic_count_binary64_le hN hN53 hc45 (tics_needed_binary64_le hN hN53 hc45)
  · rw [h4, ho, htic, List.append_assoc, List.append_replicate_replicate]
    congr 2
    omega

theorem increment_binary64_calls_display_tic (s : simple_progress_display)
    (hE : s._expected_count ≠ 0) (h : s._next_tic_count ≤ s._count) :
    s.increment_binary64 = display_tic_binary64 { s with _count := s._count + 1 } := by
  unfold increment_binary64
  rw [if_neg hE]
  simp only
  rw [if_pos (Nat.le_succ_of_le h)]

theorem increment_binary64_bar_state {N c t : Nat} {s : simple_progress_display}
    (hN : 0 < N) (hN53 : N < 2 ^ 53) (hc45 : c + 1 ≤ 2 ^ 45)
    (h : bar_state N c t s) (ht : t ≤ tics_needed_binary64 c N) :
    bar_state N (c + 1) (tics_needed_binary64 (c + 1) N) s.increment_binary64 := by
  obtain ⟨hc, hE, htic, hnext, ho⟩ := h
  have h1 : bar_state N (c + 1) t { s with _count := s._count + 1 } :=
    ⟨by simp only [hc], hE, htic, Nat.le_succ_of_le hnext, ho⟩
  rw [increment_binary64_calls_display_tic s (by rw [hE]; exact Nat.pos_iff_ne_zero.mp hN)
    (by rw [hc]; exact hnext)]
  exact display_tic_binary64_bar_state hN hN53 hc45 h1
    (le_trans ht (tics_needed_binary64_mono (lt_of_le_of_lt hc45 (by norm_num)) hN53
      (Nat.le_succ c)))

theorem tics_needed_binary64_zero {N : Nat} (hN : 0 < N) (hN53 : N < 2 ^ 53) :
    tics_needed_binary64 0 N = 0 := by
  have h := tics_needed_binary64_le hN hN53 (Nat.zero_le (2 ^ 45))
  simpa using h

theorem increments_binary64_bar_state {N : Nat} (hN : 0 < N) (hN53 : N < 2 ^ 53) :
    ∀ k : Nat, k ≤ 2 ^ 45 →
      bar_state N k (tics_needed_binary64 k N) (increment_binary64^[k] (init N)) := by
  intro k
  induction k with
  | zero =>
    intro _
    rw [tics_needed_binary64_zero hN hN53]
    simpa using init_bar_state hN
  | succ k ih =>
    intro hk
    rw [Function.iterate_succ_apply']
    exact increment_binary64_bar_state hN hN53 hk (ih (Nat.le_of_succ_le hk)) (Nat.le_refl _)

theorem binary64_round_29_div_50 :
    binary64_round (29 / 50) = 5224175567749775 / 2 ^ (53 : ℕ) := by
  rw [binary64_round_eq_of (e := -1) (m := 5224175567749775) (by norm_num) (by norm_num)
    (by norm_num [abs_lt])]
  norm_num

theorem binary64_round_below_29 :
    binary64_round (5224175567749775 / 2 ^ (53 : ℕ) * 50)
      = 8162774324609023 / 2 ^ (48 : ℕ) := by
  rw [binary64_round_eq_of (e := 4) (m := 8162774324609023) (by norm_num) (by norm_num)
    (by norm_num [abs_lt])]
  norm_num

theorem tics_needed_binary64_29_50 : tics_needed_binary64 29 50 = 28 := by
  rw [tics_needed_binary64_eq (by norm_num) (by norm_num)]
  have h : ((29 : ℕ) : ℚ) / ((50 : ℕ) : ℚ) = 29 / 50 := by norm_num
  rw [h, binary64_round_29_div_50, binary64_round_below_29, Nat.floor_eq_iff (by norm_num)]
  constructor <;> norm_num

/-- C22, the claim fails at `N = 50`, `k = 29` and at `N = 100`, `k = 101`: in
binary64, after 29 increments of a display expecting 50 the bar has 28 stars,
not `floor(50*29/50) = 29`, because `29/50` rounds below `0.58` and the product
with `50.0` stays below `29`; and after 101 increments of a display expecting
100 it has 50 stars, which does not exceed 50 although `k > N`. -/
theorem progress_stars_binary64_counterexamples :
    (increment_binary64^[29] (init 50)).stars = 28 ∧ 50 * 29 / 50 = 29 ∧
      (100 : Nat) < 101 ∧ (increment_binary64^[101] (init 100)).stars = 50 ∧
      ¬ (50 < (increment_binary64^[101] (init 100)).stars) := by
  have h1 : (increment_binary64^[29] (init 50)).stars = 28 := by
    rw [bar_state_stars
      (increments_binary64_bar_state (by norm_num) (by norm_num) 29 (by norm_num))]
    exact tics_needed_binary64_29_50
  have h2 : (increment_binary64^[101] (init 100)).stars = 50 := by
    rw [bar_state_stars
      (increments_binary64_bar_state (by norm_num) (by norm_num) 101 (by norm_num)),
      tics_needed_binary64_eq_div (by norm_num) (by norm_num) (by norm_num) (by decide)]
  refine ⟨h1, by decide, by decide, h2, ?_⟩
  rw [h2]
  decide

/-- C22, as amended: in binary64, as the code computes, for every expected
count `0 < N < 2^53` and every `k < 2^45` with `50*k/N < 2^32` (so that every
conversion is exact and every cast is in range), after `k` increments the number
of stars written is the truncation of `fl(fl(k/N) * 50.0)`, which is
`floor(50*k/N)` or one less, and is `floor(50*k/N)` whenever `N` does not
divide `50*k`; `_next_tic_count` does not exceed `_count`, so the next
increment calls `display_tic`; the number of stars does not decrease; it is at
most 50 whenever `k ≤ N`; and it exceeds 50 exactly when `50*k ≥ 51*N`. -/
theorem progress_stars_after_increments_binary64 (N k : Nat) (hN : 0 < N) (hN53 : N < 2 ^ 53)
    (hk : k < 2 ^ 45) (h32 : 50 * k / N < 2 ^ 32) :
    (increment_binary64^[k] (init N)).stars = tics_needed_binary64 k N ∧
      (increment_binary64^[k] (init N)).stars < 2 ^ 32 ∧
      50 * k / N ≤ (increment_binary64^[k] (init N)).stars + 1 ∧
      (increment_binary64^[k] (init N)).stars ≤ 50 * k / N ∧
      (¬ N ∣ 50 * k → (increment_binary64^[k] (init N)).stars = 50 * k / N) ∧
      (increment_binary64^[k] (init N))._next_tic_count
        ≤ (increment_binary64^[k] (init N))._count ∧
      (increment_binary64^[k] (init N)).increment_binary64
        = display_tic_binary64
            { increment_binary64^[k] (init N) with
              _count := (increment_binary64^[k] (init N))._count + 1 } ∧
      (increment_binary64^[k] (init N)).stars ≤ (increment_binary64^[k + 1] (init N)).stars ∧
      (k ≤ N → (increment_binary64^[k] (init N)).stars ≤ 50) ∧
      (50 < (increment_binary64^[k] (init N)).stars ↔ 51 * N ≤ 50 * k) := by
  have hk45 : k ≤ 2 ^ 45 := hk.le
  have hk53 : k < 2 ^ 53 := lt_trans hk (by norm_num)
  have hb := increments_binary64_bar_state hN hN53 k hk45
  have hs := bar_state_stars hb
  have hs1 := bar_state_stars (increments_binary64_bar_state hN hN53 (k + 1) hk)
  have hle := tics_needed_binary64_le hN hN53 hk45
  obtain ⟨hc, hE, -, hnext, -⟩ := hb
  refine ⟨hs, ?_, ?_, ?_, fun hdvd => ?_, by rw [hc]; exact hnext, ?_, ?_, fun hkN => ?_, ?_⟩
  · rw [hs]
    exact lt_of_le_of_lt hle h32
  · rw [hs]
    exact le_tics_needed_binary64_succ hN hN53 hk45
  · rw [hs]
    exact hle
  · rw [hs]
    exact tics_needed_binary64_eq_div hN hN53 hk45 hdvd
  · exact increment_binary64_calls_display_tic _ (by rw [hE]; exact Nat.pos_iff_ne_zero.mp hN)
      (by rw [hc]; exact hnext)
  · rw [hs, hs1]
    exact tics_needed_binary64_mono (lt_of_le_of_lt hk (by norm_num)) hN53 (Nat.le_succ k)
  · rw [hs]
    exact tics_needed_binary64_le_50 hN hN53 hkN
  · rw [hs]
    constructor
    · intro h
      have h51 : 51 ≤ 50 * k / N := le_trans h hle
      exact (Nat.le_div_iff_mul_le hN).mp h51
    · intro h
      exact le_tics_needed_binary64_51 hN hN53 hk53 h

theorem progress_stars_after_increments_binary64_witness :
    (increment_binary64^[29] (init 50)).stars = tics_needed_binary64 29 50 ∧
      (increment_binary64^[29] (init 50)).stars ≤ 50 * 29 / 50 ∧
      (increment_binary64^[2] (init 3)).stars = 50 * 2 / 3 ∧
      (50 < (increment_binary64^[51] (init 50)).stars ↔ 51 * 50 ≤ 50 * 51) :=
  ⟨(progress_stars_after_increments_binary64 50 29 (by norm_num) (by norm_num) (by norm_num)
      (by norm_num)).1,
    (progress_stars_after_increments_binary64 50 29 (by norm_num) (by norm_num) (by norm_num)
      (by norm_num)).2.2.2.1,
    (progress_stars_after_increments_binary64 3 2 (by norm_num) (by norm_num) (by norm_num)
      (by norm_num)).2.2.2.2.1 (by decide),
    (progress_stars_after_increments_binary64 50 51 (by norm_num) (by norm_num) (by norm_num)
      (by norm_num)).2.2.2.2.2.2.2.2.2⟩

end ProgressTheorems

end Vina
